import Mathlib

/-!
Verification of the tui-canvas Canvas Spawn & IPC Orchestration Engine.

Shallow embedding of:
- the result-await state machine of `spawnCanvasWithIPC`
  (packages/core/src/api/canvas-api.ts),
- the newline-framed message decoder of the controller server
  (packages/core/src/ipc/types.ts, `createControllerServer` data handler),
- `connectWithRetry` (packages/core/src/ipc/types.ts),
- the startup ordering of `createControllerServer` plus canvas launch,
- the tmux pane manager: `getCanvasPaneId` / `spawnTmux`
  (packages/core/src/terminal.ts, identical logic in the spawner module)
  and `cleanupOrphanedPanes` (spawner module).

Opaque payloads (the TypeScript `unknown` config/data values) are modelled
by a type parameter `α`.
-/

namespace TuiCanvas

/-- `CanvasMessage` from packages/core/src/ipc/types.ts (canvas → controller). -/
inductive CanvasMessage (α : Type) where
  | ready (scenario : String)
  | selected (data : α)
  | cancelled (reason : Option String)
  | error (message : String)
  | pong
  | selection (data : α)
  | content (data : α)
deriving DecidableEq, Repr

/-- `ControllerMessage` from packages/core/src/ipc/types.ts (controller → canvas). -/
inductive ControllerMessage (α : Type) where
  | update (config : α)
  | close
  | ping
  | getSelection
  | getContent
deriving DecidableEq, Repr

/-- `CanvasResult` from canvas-api.ts: `{success, data?, cancelled?, error?}`.
An absent optional field is `none`. -/
structure CanvasResult (α : Type) where
  success : Bool
  data : Option α
  cancelled : Option Bool
  error : Option String
deriving DecidableEq, Repr

/-- Observable teardown actions of one `spawnCanvasWithIPC` instance, recorded
in the order the code performs them: `server.send({type:"close"})`,
`server.stop()`, and removal of the socket-path artifact (`unlinkSync`). -/
inductive TeardownAct where
  | sentClose
  | closedListener
  | removedEndpoint
deriving DecidableEq, Repr

/-- The mutable state of one `spawnCanvasWithIPC` invocation after
`createControllerServer` has returned and the timer is set:
`resolved`, `timeoutId` (as `timerActive`), `server` (as `serverOpen`),
the value the promise was resolved with, the controller messages written to
the peer, and the teardown trace. -/
structure OrchState (α : Type) where
  resolved : Bool
  timerActive : Bool
  serverOpen : Bool
  socketExists : Bool
  result : Option (CanvasResult α)
  sentToPeer : List (ControllerMessage α)
  trace : List TeardownAct
deriving DecidableEq, Repr

/-- State at the point every external event is processed: not resolved,
timer armed, server listening, socket artifact present. -/
def initState (α : Type) : OrchState α :=
  { resolved := false
    timerActive := true
    serverOpen := true
    socketExists := true
    result := none
    sentToPeer := []
    trace := [] }

/-- `cleanup()` of canvas-api.ts followed by resolving the promise:
clears the timer, closes the server (which stops listening and unlinks the
socket artifact), and records the result. -/
def resolveWith (s : OrchState α) (r : CanvasResult α) : OrchState α :=
  { s with
    resolved := true
    timerActive := false
    serverOpen := false
    socketExists := false
    result := some r
    trace := s.trace ++ [TeardownAct.closedListener, TeardownAct.removedEndpoint] }

/-- `server.send(msg)`: writes to the connected peer while the server is
open (a closed server reference is null and nothing is sent). -/
def sendToPeer (s : OrchState α) (m : ControllerMessage α) : OrchState α :=
  if s.serverOpen then
    { s with sentToPeer := s.sentToPeer ++ [m], trace := s.trace ++ [TeardownAct.sentClose] }
  else s

/-- `handleMessage` of canvas-api.ts (lines 59–98): guarded by `resolved`,
then a switch on `msg.type`. `ready` fires `onReady` only; `pong` is
ignored; `selection`/`content` have no case and fall through. -/
def handleMessage (s : OrchState α) (m : CanvasMessage α) : OrchState α :=
  if s.resolved then s
  else
    match m with
    | .ready _ => s
    | .selected d =>
        resolveWith s { success := true, data := some d, cancelled := none, error := none }
    | .cancelled _ =>
        resolveWith s { success := true, data := none, cancelled := some true, error := none }
    | .error msg =>
        resolveWith s { success := false, data := none, cancelled := none, error := some msg }
    | .pong => s
    | .selection _ => s
    | .content _ => s

/-- External events delivered to one `spawnCanvasWithIPC` instance. -/
inductive Event (α : Type) where
  | message (m : CanvasMessage α)
  | disconnect
  | ipcError (message : String)
  | timeout
  | spawnFailed (message : String)
deriving DecidableEq, Repr

/-- One event of the instance:
- `message` runs `handleMessage`;
- `disconnect` is `onClientDisconnect` (resolve failure "Canvas disconnected
  unexpectedly" if not yet resolved);
- `ipcError` is `onError`;
- `timeout` is the `setTimeout` callback: if not resolved, send a best-effort
  `close` envelope, then clean up and resolve the timeout failure;
- `spawnFailed` is the `spawnCanvas(...).catch` handler. -/
def step (s : OrchState α) (e : Event α) : OrchState α :=
  match e with
  | .message m => handleMessage s m
  | .disconnect =>
      if s.resolved then s
      else resolveWith s
        { success := false, data := none, cancelled := none,
          error := some "Canvas disconnected unexpectedly" }
  | .ipcError msg =>
      if s.resolved then s
      else resolveWith s
        { success := false, data := none, cancelled := none, error := some msg }
  | .timeout =>
      if s.resolved then s
      else
        resolveWith (sendToPeer s ControllerMessage.close)
          { success := false, data := none, cancelled := none,
            error := some "Timeout waiting for user selection" }
  | .spawnFailed msg =>
      if s.resolved then s
      else resolveWith s
        { success := false, data := none, cancelled := none,
          error := some ("Failed to spawn canvas: " ++ msg) }

/-- Deliver a sequence of events in order. -/
def run (s : OrchState α) (evs : List (Event α)) : OrchState α :=
  evs.foldl step s

/-- An event is terminal when its handler resolves a not-yet-resolved
instance: terminal canvas messages, disconnect, IPC error, timeout, and
spawn failure. -/
def Event.isTerminal : Event α → Bool
  | .message (.selected _) => true
  | .message (.cancelled _) => true
  | .message (.error _) => true
  | .message _ => false
  | .disconnect => true
  | .ipcError _ => true
  | .timeout => true
  | .spawnFailed _ => true

theorem resolveWith_resolved (s : OrchState α) (r : CanvasResult α) :
    (resolveWith s r).resolved = true := rfl

/-- A resolved state is frozen: every later event is a no-op. -/
theorem step_of_resolved (s : OrchState α) (e : Event α) (h : s.resolved = true) :
    step s e = s := by
  cases e with
  | message m => cases m <;> simp [step, handleMessage, h]
  | disconnect => simp [step, h]
  | ipcError msg => simp [step, h]
  | timeout => simp [step, h]
  | spawnFailed msg => simp [step, h]

/-- A resolved state is frozen under any event sequence. -/
theorem run_of_resolved (s : OrchState α) (evs : List (Event α)) (h : s.resolved = true) :
    run s evs = s := by
  induction evs with
  | nil => rfl
  | cons e evs ih =>
      simp only [run, List.foldl_cons]
      rw [step_of_resolved s e h]
      exact ih

/-- A non-terminal event leaves the initial state unchanged. -/
theorem step_init_nonterminal (e : Event α) (h : e.isTerminal = false) :
    step (initState α) e = initState α := by
  cases e with
  | message m =>
      cases m <;> simp_all [Event.isTerminal, step, handleMessage, initState]
  | disconnect => simp [Event.isTerminal] at h
  | ipcError msg => simp [Event.isTerminal] at h
  | timeout => simp [Event.isTerminal] at h
  | spawnFailed msg => simp [Event.isTerminal] at h

/-- A run of non-terminal events leaves the initial state unchanged. -/
theorem run_init_nonterminal (evs : List (Event α))
    (h : ∀ x ∈ evs, x.isTerminal = false) :
    run (initState α) evs = initState α := by
  induction evs with
  | nil => rfl
  | cons e evs ih =>
      simp only [run, List.foldl_cons]
      rw [step_init_nonterminal e (h e (List.mem_cons_self e evs))]
      exact ih fun x hx => h x (List.mem_cons_of_mem e hx)

/-- A terminal event resolves the initial state. -/
theorem step_init_terminal_resolved (e : Event α) (h : e.isTerminal = true) :
    (step (initState α) e).resolved = true := by
  cases e with
  | message m =>
      cases m <;> simp_all [Event.isTerminal, step, handleMessage, initState,
        resolveWith]
  | disconnect => simp [step, initState, resolveWith]
  | ipcError msg => simp [step, initState, resolveWith]
  | timeout => simp [step, initState, sendToPeer, resolveWith]
  | spawnFailed msg => simp [step, initState, resolveWith]

/-! The newline-framed decoder shared by the `data` handlers of
`createControllerServer`, `createIPCServer`, `connectToController` and
`createIPCClient` (packages/core/src/ipc/types.ts). Each handler runs
`buffer += data.toString()` — the incoming byte chunk is UTF-8 decoded to
text in isolation — then splits the buffer on "\n", keeps the final
fragment as the new buffer, and for every complete non-blank line runs
`JSON.parse`, delivering the parsed message to `onMessage` or the parse
failure to `onError`. The model has two stages: the text stage works on
already-decoded characters (`List Char`), and the byte stage below models
the per-chunk `toString()` call on raw bytes (`List Nat`), which turns
invalid or incomplete UTF-8 sequences into U+FFFD replacement characters.
`JSON.parse` is an oracle `parse : List Char → Option μ`. -/

/-- `buffer.split("\n")` with the trailing fragment popped off: the
complete lines (in order) and the leftover partial line. -/
def scanLines : List Char → List (List Char) × List Char
  | [] => ([], [])
  | c :: cs =>
      if c = '\n' then ([] :: (scanLines cs).1, (scanLines cs).2)
      else
        match scanLines cs with
        | ([], buf) => ([], c :: buf)
        | (l :: ls, buf) => ((c :: l) :: ls, buf)

/-- What the decoder does with one complete line: skip it when it is blank
(`line.trim()` falsy), otherwise deliver the parsed message or a parse
error — never throw, never close the stream. -/
inductive DecodeOutcome (μ : Type) where
  | msg (m : μ)
  | parseError (line : List Char)
deriving DecidableEq, Repr

def processLine (parse : List Char → Option μ) (line : List Char) :
    List (DecodeOutcome μ) :=
  if line.all (fun c => c.isWhitespace) then []
  else
    match parse line with
    | some m => [DecodeOutcome.msg m]
    | none => [DecodeOutcome.parseError line]

def decodeLines (parse : List Char → Option μ) (ls : List (List Char)) :
    List (DecodeOutcome μ) :=
  (ls.map (processLine parse)).flatten

/-- The text stage of the `data(_socket, data)` handler, after
`data.toString()`: append the decoded text to the buffer, emit the
outcomes of the complete lines, keep the trailing fragment. -/
def feedChunk (parse : List Char → Option μ) (buf chunk : List Char) :
    List (DecodeOutcome μ) × List Char :=
  (decodeLines parse (scanLines (buf ++ chunk)).1, (scanLines (buf ++ chunk)).2)

/-- Deliver a list of already-decoded text fragments in order,
accumulating the emitted outcomes. -/
def feedChunks (parse : List Char → Option μ) (buf : List Char)
    (chunks : List (List Char)) : List (DecodeOutcome μ) × List Char :=
  chunks.foldl
    (fun acc c => (acc.1 ++ (feedChunk parse acc.2 c).1, (feedChunk parse acc.2 c).2))
    ([], buf)

/-- U+FFFD, the character `toString()` substitutes for an invalid or
incomplete byte sequence. -/
def replacementChar : Char := Char.ofNat 0xFFFD

/-- Total byte count of the UTF-8 sequence opened by lead byte `l`. -/
def utf8SeqLen (l : Nat) : Nat :=
  if l ≤ 0xDF then 2 else if l ≤ 0xEF then 3 else 4

/-- Reassemble the code point of one complete UTF-8 sequence. -/
def utf8SeqChar : List Nat → Char
  | [l, k] => Char.ofNat ((l - 0xC0) * 64 + (k - 0x80))
  | [l, k1, k2] =>
      Char.ofNat ((l - 0xE0) * 4096 + (k1 - 0x80) * 64 + (k2 - 0x80))
  | [l, k1, k2, k3] =>
      Char.ofNat ((l - 0xF0) * 262144 + (k1 - 0x80) * 4096
        + (k2 - 0x80) * 64 + (k3 - 0x80))
  | _ => replacementChar

/-- One byte of the UTF-8 decode performed by `toString()`: the
accumulator is the text produced so far and the bytes of the current
still-incomplete sequence. An ASCII byte or a completed sequence emits its
character; a lead byte opens a sequence; anything invalid (stray
continuation byte, invalid lead, broken sequence) becomes U+FFFD. -/
def utf8Step (acc : List Char × List Nat) (b : Nat) : List Char × List Nat :=
  match acc with
  | (out, []) =>
      if b < 0x80 then (out ++ [Char.ofNat b], [])
      else if 0xC2 ≤ b ∧ b ≤ 0xF4 then (out, [b])
      else (out ++ [replacementChar], [])
  | (out, l :: rest) =>
      if 0x80 ≤ b ∧ b ≤ 0xBF then
        if (l :: rest).length + 1 = utf8SeqLen l then
          (out ++ [utf8SeqChar ((l :: rest) ++ [b])], [])
        else (out, (l :: rest) ++ [b])
      else
        let out' := out ++ [replacementChar]
        if b < 0x80 then (out' ++ [Char.ofNat b], [])
        else if 0xC2 ≤ b ∧ b ≤ 0xF4 then (out', [b])
        else (out' ++ [replacementChar], [])

/-- `data.toString()` on one Buffer chunk: UTF-8 decode the chunk's bytes
in isolation; a sequence left incomplete at the end of the chunk becomes a
replacement character. This is where chunk boundaries inside a multi-byte
character are destroyed — the next chunk's continuation bytes arrive with
no memory of this chunk's trailing lead bytes. -/
def utf8DecodeChunk (bs : List Nat) : List Char :=
  let r := bs.foldl utf8Step ([], [])
  r.1 ++ (if r.2 = [] then [] else [replacementChar])

/-- Standard UTF-8 encoding of one character. -/
def utf8EncodeChar (c : Char) : List Nat :=
  let n := c.toNat
  if n < 0x80 then [n]
  else if n < 0x800 then [0xC0 + n / 64, 0x80 + n % 64]
  else if n < 0x10000 then
    [0xE0 + n / 4096, 0x80 + (n / 64) % 64, 0x80 + n % 64]
  else
    [0xF0 + n / 262144, 0x80 + (n / 4096) % 64, 0x80 + (n / 64) % 64,
     0x80 + n % 64]

/-- The UTF-8 byte stream of a character sequence. -/
def utf8Encode (cs : List Char) : List Nat :=
  (cs.map utf8EncodeChar).flatten

/-- The full `data(_socket, data)` handler on one raw byte chunk:
`buffer += data.toString()`, then line processing. -/
def feedChunkBytes (parse : List Char → Option μ) (buf : List Char)
    (chunk : List Nat) : List (DecodeOutcome μ) × List Char :=
  feedChunk parse buf (utf8DecodeChunk chunk)

/-- Deliver a list of raw byte chunks in order, as the transport does. -/
def feedChunksBytes (parse : List Char → Option μ) (buf : List Char)
    (chunks : List (List Nat)) : List (DecodeOutcome μ) × List Char :=
  chunks.foldl
    (fun acc c =>
      (acc.1 ++ (feedChunkBytes parse acc.2 c).1, (feedChunkBytes parse acc.2 c).2))
    ([], buf)

theorem scanLines_append (x y : List Char) :
    scanLines (x ++ y)
      = ((scanLines x).1 ++ (scanLines ((scanLines x).2 ++ y)).1,
         (scanLines ((scanLines x).2 ++ y)).2) := by
  induction x with
  | nil => simp [scanLines]
  | cons c cs ih =>
      by_cases hc : c = '\n'
      · subst hc
        simp [scanLines, ih]
      · rcases h : scanLines cs with ⟨ls1, buf1⟩
        have ih' : scanLines (cs ++ y)
            = (ls1 ++ (scanLines (buf1 ++ y)).1, (scanLines (buf1 ++ y)).2) := by
          rw [ih, h]
        cases ls1 with
        | nil =>
            rcases hA : scanLines (buf1 ++ y) with ⟨la, ba⟩
            cases la with
            | nil => simp [scanLines, hc, ih', h, hA]
            | cons a as => simp [scanLines, hc, ih', h, hA]
        | cons l ls =>
            simp [scanLines, hc, ih', h]

theorem scanLines_no_newline (l : List Char) (h : ∀ c ∈ l, ¬ c = '\n') :
    scanLines l = ([], l) := by
  induction l with
  | nil => rfl
  | cons c cs ih =>
      have hc : ¬ c = '\n' := h c (List.mem_cons_self c cs)
      have hrest := ih fun x hx => h x (List.mem_cons_of_mem c hx)
      simp [scanLines, hc, hrest]

theorem scanLines_buffer_no_newline (l : List Char) :
    ∀ c ∈ (scanLines l).2, ¬ c = '\n' := by
  induction l with
  | nil => intro c hc; simp [scanLines] at hc
  | cons a as ih =>
      intro c hc
      by_cases ha : a = '\n'
      · subst ha
        simp only [scanLines, if_pos rfl] at hc
        exact ih c hc
      · rcases h : scanLines as with ⟨ls1, buf1⟩
        cases ls1 with
        | nil =>
            simp only [scanLines, if_neg ha, h] at hc
            rcases List.mem_cons.mp hc with hceq | hcmem
            · subst hceq; exact ha
            · exact ih c (by simp [h, hcmem])
        | cons l ls =>
            simp only [scanLines, if_neg ha, h] at hc
            exact ih c (by simp [h, hc])

theorem decodeLines_append (parse : List Char → Option μ)
    (a b : List (List Char)) :
    decodeLines parse (a ++ b) = decodeLines parse a ++ decodeLines parse b := by
  simp [decodeLines]

theorem feedChunk_append (parse : List Char → Option μ) (buf a b : List Char) :
    feedChunk parse buf (a ++ b)
      = ((feedChunk parse buf a).1 ++ (feedChunk parse (feedChunk parse buf a).2 b).1,
         (feedChunk parse (feedChunk parse buf a).2 b).2) := by
  have h := scanLines_append (buf ++ a) b
  simp only [feedChunk, ← List.append_assoc, h, decodeLines_append]

theorem feedChunks_foldl (parse : List Char → Option μ)
    (chunks : List (List Char)) :
    ∀ (out : List (DecodeOutcome μ)) (buf : List Char),
      (∀ c ∈ buf, ¬ c = '\n') →
      chunks.foldl
          (fun acc c =>
            (acc.1 ++ (feedChunk parse acc.2 c).1, (feedChunk parse acc.2 c).2))
          (out, buf)
        = (out ++ (feedChunk parse buf chunks.flatten).1,
           (feedChunk parse buf chunks.flatten).2) := by
  induction chunks with
  | nil =>
      intro out buf hbuf
      simp [feedChunk, scanLines_no_newline buf hbuf, decodeLines]
  | cons c cs ih =>
      intro out buf hbuf
      have hbuf2 : ∀ x ∈ (feedChunk parse buf c).2, ¬ x = '\n' := by
        intro x hx
        exact scanLines_buffer_no_newline (buf ++ c) x hx
      simp only [List.foldl_cons]
      rw [ih (out ++ (feedChunk parse buf c).1) (feedChunk parse buf c).2 hbuf2]
      rw [List.flatten_cons, feedChunk_append parse buf c cs.flatten]
      simp

/-- The text stage is fragmentation-invariant: delivering decoded text as
any sequence of fragments emits exactly the outcomes of delivering it
whole, with the same trailing partial-line buffer. -/
theorem feedChunks_eq_feedChunk_flatten (μ : Type)
    (parse : List Char → Option μ) (chunks : List (List Char)) :
    feedChunks parse [] chunks = feedChunk parse [] chunks.flatten := by
  have h := feedChunks_foldl parse chunks [] [] (by intro c hc; simp at hc)
  simpa [feedChunks] using h

theorem utf8Step_encodeChar (c : Char) (out : List Char) (rest : List Nat) :
    (utf8EncodeChar c ++ rest).foldl utf8Step (out, [])
      = rest.foldl utf8Step (out ++ [c], []) := by
  have hval : Nat.isValidChar c.toNat := c.valid
  have hlt : c.toNat < 0x110000 := by
    rcases hval with h | ⟨_, h⟩
    · omega
    · exact h
  unfold utf8EncodeChar
  by_cases h1 : c.toNat < 0x80
  · simp only [if_pos h1, List.cons_append, List.nil_append, List.foldl_cons]
    have hstep : utf8Step (out, []) c.toNat = (out ++ [Char.ofNat c.toNat], []) := by
      simp only [utf8Step]
      rw [if_pos h1]
    rw [hstep, Char.ofNat_toNat]
  · by_cases h2 : c.toNat < 0x800
    · simp only [if_neg h1, if_pos h2, List.cons_append, List.nil_append,
        List.foldl_cons]
      have hb1 : utf8Step (out, []) (0xC0 + c.toNat / 64)
          = (out, [0xC0 + c.toNat / 64]) := by
        simp only [utf8Step]
        rw [if_neg (by omega), if_pos (by omega)]
      have hb2 : utf8Step (out, [0xC0 + c.toNat / 64]) (0x80 + c.toNat % 64)
          = (out ++ [utf8SeqChar [0xC0 + c.toNat / 64, 0x80 + c.toNat % 64]],
             []) := by
        simp only [utf8Step]
        rw [if_pos (by omega)]
        rw [if_pos (by unfold utf8SeqLen; rw [if_pos (by omega)]; rfl)]
        rfl
      have hc : utf8SeqChar [0xC0 + c.toNat / 64, 0x80 + c.toNat % 64] = c := by
        simp only [utf8SeqChar]
        rw [show (0xC0 + c.toNat / 64 - 0xC0) * 64 + (0x80 + c.toNat % 64 - 0x80)
            = c.toNat from by omega]
        exact Char.ofNat_toNat c
      rw [hb1, hb2, hc]
    · by_cases h3 : c.toNat < 0x10000
      · simp only [if_neg h1, if_neg h2, if_pos h3, List.cons_append,
          List.nil_append, List.foldl_cons]
        have hb1 : utf8Step (out, []) (0xE0 + c.toNat / 4096)
            = (out, [0xE0 + c.toNat / 4096]) := by
          simp only [utf8Step]
          rw [if_neg (by omega), if_pos (by omega)]
        have hb2 : utf8Step (out, [0xE0 + c.toNat / 4096])
            (0x80 + c.toNat / 64 % 64)
            = (out, [0xE0 + c.toNat / 4096, 0x80 + c.toNat / 64 % 64]) := by
          simp only [utf8Step]
          rw [if_pos (by omega)]
          rw [if_neg (by unfold utf8SeqLen
                         rw [if_neg (by omega), if_pos (by omega)]
                         simp)]
          rfl
        have hb3 : utf8Step (out, [0xE0 + c.toNat / 4096, 0x80 + c.toNat / 64 % 64])
            (0x80 + c.toNat % 64)
            = (out ++ [utf8SeqChar [0xE0 + c.toNat / 4096,
                0x80 + c.toNat / 64 % 64, 0x80 + c.toNat % 64]], []) := by
          simp only [utf8Step]
          rw [if_pos (by omega)]
          rw [if_pos (by unfold utf8SeqLen
                         rw [if_neg (by omega), if_pos (by omega)]
                         rfl)]
          rfl
        have hc : utf8SeqChar [0xE0 + c.toNat / 4096, 0x80 + c.toNat / 64 % 64,
            0x80 + c.toNat % 64] = c := by
          simp only [utf8SeqChar]
          rw [show (0xE0 + c.toNat / 4096 - 0xE0) * 4096
              + (0x80 + c.toNat / 64 % 64 - 0x80) * 64
              + (0x80 + c.toNat % 64 - 0x80) = c.toNat from by omega]
          exact Char.ofNat_toNat c
        rw [hb1, hb2, hb3, hc]
      · simp only [if_neg h1, if_neg h2, if_neg h3, List.cons_append,
          List.nil_append, List.foldl_cons]
        have hb1 : utf8Step (out, []) (0xF0 + c.toNat / 262144)
            = (out, [0xF0 + c.toNat / 262144]) := by
          simp only [utf8Step]
          rw [if_neg (by omega), if_pos (by omega)]
        have hb2 : utf8Step (out, [0xF0 + c.toNat / 262144])
            (0x80 + c.toNat / 4096 % 64)
            = (out, [0xF0 + c.toNat / 262144, 0x80 + c.toNat / 4096 % 64]) := by
          simp only [utf8Step]
          rw [if_pos (by omega)]
          rw [if_neg (by unfold utf8SeqLen
                         rw [if_neg (by omega), if_neg (by omega)]
                         simp)]
          rfl
        have hb3 : utf8Step (out, [0xF0 + c.toNat / 262144,
            0x80 + c.toNat / 4096 % 64]) (0x80 + c.toNat / 64 % 64)
            = (out, [0xF0 + c.toNat / 262144, 0x80 + c.toNat / 4096 % 64,
                0x80 + c.toNat / 64 % 64]) := by
          simp only [utf8Step]
          rw [if_pos (by omega)]
          rw [if_neg (by unfold utf8SeqLen
                         rw [if_neg (by omega), if_neg (by omega)]
                         simp)]
          rfl
        have hb4 : utf8Step (out, [0xF0 + c.toNat / 262144,
            0x80 + c.toNat / 4096 % 64, 0x80 + c.toNat / 64 % 64])
            (0x80 + c.toNat % 64)
            = (out ++ [utf8SeqChar [0xF0 + c.toNat / 262144,
                0x80 + c.toNat / 4096 % 64, 0x80 + c.toNat / 64 % 64,
                0x80 + c.toNat % 64]], []) := by
          simp only [utf8Step]
          rw [if_pos (by omega)]
          rw [if_pos (by unfold utf8SeqLen
                         rw [if_neg (by omega), if_neg (by omega)]
                         rfl)]
          rfl
        have hc : utf8SeqChar [0xF0 + c.toNat / 262144,
            0x80 + c.toNat / 4096 % 64, 0x80 + c.toNat / 64 % 64,
            0x80 + c.toNat % 64] = c := by
          simp only [utf8SeqChar]
          rw [show (0xF0 + c.toNat / 262144 - 0xF0) * 262144
              + (0x80 + c.toNat / 4096 % 64 - 0x80) * 4096
              + (0x80 + c.toNat / 64 % 64 - 0x80) * 64
              + (0x80 + c.toNat % 64 - 0x80) = c.toNat from by omega]
          exact Char.ofNat_toNat c
        rw [hb1, hb2, hb3, hb4, hc]

/-- `toString()` applied to a chunk that is a sequence of complete UTF-8
characters decodes to exactly those characters. -/
theorem utf8DecodeChunk_encode (cs : List Char) :
    utf8DecodeChunk (utf8Encode cs) = cs := by
  suffices h : ∀ out : List Char,
      (utf8Encode cs).foldl utf8Step (out, []) = (out ++ cs, []) by
    unfold utf8DecodeChunk
    rw [h []]
    simp
  induction cs with
  | nil =>
      intro out
      simp [utf8Encode]
  | cons c cs ih =>
      intro out
      have henc : utf8Encode (c :: cs) = utf8EncodeChar c ++ utf8Encode cs := by
        simp [utf8Encode]
      rw [henc, List.foldl_append]
      have := utf8Step_encodeChar c out (utf8Encode cs)
      rw [List.foldl_append] at this
      rw [this, ih (out ++ [c])]
      simp

theorem utf8Encode_flatten (ccs : List (List Char)) :
    (ccs.map utf8Encode).flatten = utf8Encode ccs.flatten := by
  induction ccs with
  | nil => rfl
  | cons cs ccs ih =>
      simp only [List.map_cons, List.flatten_cons, ih]
      simp [utf8Encode, List.map_append, List.flatten_append]

theorem feedChunksBytes_eq (parse : List Char → Option μ) (buf : List Char)
    (chunks : List (List Nat)) :
    feedChunksBytes parse buf chunks
      = feedChunks parse buf (chunks.map utf8DecodeChunk) := by
  unfold feedChunksBytes feedChunks feedChunkBytes
  rw [List.foldl_map]

/-- The parser of the C8 counterexample: accepts the single-character line
"é" (U+00E9). -/
def parseAccent : List Char → Option Nat :=
  fun l => if l = [Char.ofNat 0xE9] then some 42 else none

/-- C8 counterexample: the byte stream `C3 A9 0A` ("é\n") delivered whole
parses as one message, but the partition `[C3] [A9 0A]` splits the
two-byte character across chunks; each chunk's `toString()` mangles its
fragment into U+FFFD, so the decoder emits a parse error instead — the
decoder is not chunking-invariant over arbitrary byte partitions. -/
theorem decoder_chunking_counterexample :
    ([[0xC3], [0xA9, 0x0A]] : List (List Nat)).flatten = [0xC3, 0xA9, 0x0A]
      ∧ feedChunkBytes parseAccent [] [0xC3, 0xA9, 0x0A]
        = ([DecodeOutcome.msg 42], [])
      ∧ feedChunksBytes parseAccent [] [[0xC3], [0xA9, 0x0A]]
        = ([DecodeOutcome.parseError [replacementChar, replacementChar]], [])
      ∧ ¬ feedChunksBytes parseAccent [] [[0xC3], [0xA9, 0x0A]]
        = feedChunkBytes parseAccent []
            ([[0xC3], [0xA9, 0x0A]] : List (List Nat)).flatten := by
  refine ⟨rfl, by decide, by decide, by decide⟩

/-- C8 (amended): decoding is chunking-invariant at UTF-8 character
granularity — for every byte stream and every partition of it into chunks
whose boundaries fall on character boundaries (each chunk a sequence of
complete UTF-8 characters), the decoder emits the same sequence of
outcomes as when the whole stream arrives in one chunk, buffering any
trailing partial line until its newline arrives. (Arbitrary byte
partitions are not invariant: per-chunk `toString()` mangles a character
split across a boundary into replacement characters.) -/
theorem decoder_chunking_invariant_utf8_aligned (μ : Type)
    (parse : List Char → Option μ) (charChunks : List (List Char)) :
    feedChunksBytes parse [] (charChunks.map utf8Encode)
      = feedChunkBytes parse [] (charChunks.map utf8Encode).flatten := by
  rw [feedChunksBytes_eq]
  unfold feedChunkBytes
  rw [utf8Encode_flatten, utf8DecodeChunk_encode]
  have hmapmap : (charChunks.map utf8Encode).map utf8DecodeChunk = charChunks := by
    rw [List.map_map]
    have hpt : ∀ cs ∈ charChunks, (utf8DecodeChunk ∘ utf8Encode) cs = cs :=
      fun cs _ => utf8DecodeChunk_encode cs
    rw [List.map_congr_left hpt]
    exact List.map_id' charChunks
  rw [hmapmap]
  exact feedChunks_eq_feedChunk_flatten μ parse charChunks

theorem scanLines_complete_line (l rest : List Char) (h : ∀ c ∈ l, ¬ c = '\n') :
    scanLines (l ++ '\n' :: rest)
      = (l :: (scanLines rest).1, (scanLines rest).2) := by
  induction l with
  | nil => simp [scanLines]
  | cons c cs ih =>
      have hc : ¬ c = '\n' := h c (List.mem_cons_self c cs)
      have hrest := ih fun x hx => h x (List.mem_cons_of_mem c hx)
      simp [scanLines, hc, hrest]

/-- C9: a malformed (unparsable, non-blank) line produces exactly one error
outcome and the decoder continues — every well-formed line before and after
it is still delivered, and the stream state stays consistent (empty buffer
after the final newline). -/
theorem malformed_line_nonfatal (μ : Type) (parse : List Char → Option μ)
    (good1 bad good2 : List Char) (m1 m2 : μ)
    (hnl1 : ∀ c ∈ good1, ¬ c = '\n') (hnlb : ∀ c ∈ bad, ¬ c = '\n')
    (hnl2 : ∀ c ∈ good2, ¬ c = '\n')
    (hb1 : good1.all (fun c => c.isWhitespace) = false)
    (hbb : bad.all (fun c => c.isWhitespace) = false)
    (hb2 : good2.all (fun c => c.isWhitespace) = false)
    (hp1 : parse good1 = some m1) (hpb : parse bad = none)
    (hp2 : parse good2 = some m2) :
    feedChunk parse [] (good1 ++ '\n' :: (bad ++ '\n' :: (good2 ++ ['\n'])))
      = ([DecodeOutcome.msg m1, DecodeOutcome.parseError bad, DecodeOutcome.msg m2],
         []) := by
  have h1 := scanLines_complete_line good1 (bad ++ '\n' :: (good2 ++ ['\n'])) hnl1
  have h2 := scanLines_complete_line bad (good2 ++ ['\n']) hnlb
  have h3 := scanLines_complete_line good2 [] hnl2
  simp only [feedChunk, List.nil_append, h1, h2, h3, scanLines]
  simp [decodeLines, processLine, hb1, hbb, hb2, hp1, hpb, hp2]

/-- Witness for C9: stream `"a\nx\nb\n"` with a parser accepting only
`"a"` and `"b"`. -/
theorem malformed_line_nonfatal_witness :
    feedChunk (fun l => if l = ['a'] then some 1 else if l = ['b'] then some 2 else none)
        [] (['a'] ++ '\n' :: (['x'] ++ '\n' :: (['b'] ++ ['\n'])))
      = ([DecodeOutcome.msg 1, DecodeOutcome.parseError ['x'], DecodeOutcome.msg 2],
         []) := by
  exact malformed_line_nonfatal Nat
    (fun l => if l = ['a'] then some 1 else if l = ['b'] then some 2 else none)
    ['a'] ['x'] ['b'] 1 2
    (by decide) (by decide) (by decide) (by decide) (by decide) (by decide)
    (by decide) (by decide) (by decide)

/-! Startup ordering of `spawnCanvasWithIPC`: the code awaits
`createControllerServer` (which removes any stale artifact at the socket
path with `unlinkSync`, then binds with `Bun.listen`) before the promise
executor sets the timer and calls `spawnCanvas`. -/

/-- The primitive effects `spawnCanvasWithIPC` performs at startup, in
program order. -/
inductive StartOp where
  | removeStaleArtifact
  | bindListen
  | setTimer
  | launchProcess
deriving DecidableEq, Repr

/-- The sequential order of startup effects in `spawnCanvasWithIPC`:
`createControllerServer` first (stale-artifact removal, then bind), then
the timer, then the canvas launch. -/
def startupOps : List StartOp :=
  [StartOp.removeStaleArtifact, StartOp.bindListen, StartOp.setTimer,
   StartOp.launchProcess]

/-- Filesystem/listener world as the startup effects see it; the launch
step records what it observes about the endpoint at launch time. -/
structure StartWorld where
  artifactExists : Bool
  listening : Bool
  timerSet : Bool
  launchAttempted : Bool
  launchObservedArtifact : Option Bool
  launchObservedListening : Option Bool
deriving DecidableEq, Repr

def execStartOp (w : StartWorld) : StartOp → StartWorld
  | .removeStaleArtifact => { w with artifactExists := false }
  | .bindListen => { w with artifactExists := true, listening := true }
  | .setTimer => { w with timerSet := true }
  | .launchProcess =>
      { w with
        launchAttempted := true
        launchObservedArtifact := some w.artifactExists
        launchObservedListening := some w.listening }

/-- Run the startup of `spawnCanvasWithIPC` against a socket path that may
or may not hold a stale artifact. -/
def runStartup (stale : Bool) : StartWorld :=
  startupOps.foldl execStartOp
    { artifactExists := stale
      listening := false
      timerSet := false
      launchAttempted := false
      launchObservedArtifact := none
      launchObservedListening := none }

/-- C4: whatever was at the socket path, the orchestrator removes any stale
artifact, binds, and is listening strictly before the launch is attempted;
the launch step observes the endpoint artifact present and the listener
bound. -/
theorem endpoint_bound_before_launch (stale : Bool) :
    (runStartup stale).launchAttempted = true
      ∧ (runStartup stale).launchObservedArtifact = some true
      ∧ (runStartup stale).launchObservedListening = some true
      ∧ List.indexOf StartOp.bindListen startupOps
          < List.indexOf StartOp.launchProcess startupOps
      ∧ List.indexOf StartOp.removeStaleArtifact startupOps
          < List.indexOf StartOp.bindListen startupOps := by
  cases stale <;> decide

/-! `connectWithRetry` (packages/core/src/ipc/types.ts lines 121–138):
a for-loop of at most `maxRetries` calls to `connectToController`; each
failure stores the error and sleeps `retryDelayMs`; after the loop the last
error (or a default) is thrown. The connection attempts are modelled by an
oracle `connect : Nat → Except String Unit` giving the outcome of the
i-th attempt. -/

/-- Observable outcome of `connectWithRetry`: how many connection attempts
were made, how long it slept in total, and the final outcome. -/
structure RetryResult where
  attempts : Nat
  totalDelayMs : Nat
  outcome : Except String Unit
deriving Repr

/-- The loop of `connectWithRetry`: `i` is the index of the next attempt,
the second argument the remaining loop iterations, the third `lastError`. -/
def retryLoop (connect : Nat → Except String Unit) (retryDelayMs : Nat) :
    Nat → Nat → Option String → RetryResult
  | _, 0, lastError =>
      { attempts := 0, totalDelayMs := 0
        outcome := Except.error (lastError.getD "Failed to connect to controller") }
  | i, n + 1, _ =>
      match connect i with
      | Except.ok u => { attempts := 1, totalDelayMs := 0, outcome := Except.ok u }
      | Except.error e =>
          let r := retryLoop connect retryDelayMs (i + 1) n (some e)
          { attempts := r.attempts + 1
            totalDelayMs := r.totalDelayMs + retryDelayMs
            outcome := r.outcome }

/-- `connectWithRetry(options, maxRetries, retryDelayMs)`. -/
def connectWithRetry (connect : Nat → Except String Unit)
    (maxRetries retryDelayMs : Nat) : RetryResult :=
  retryLoop connect retryDelayMs 0 maxRetries none

/-- C5: against an endpoint that never accepts, `connectWithRetry` with
`maxRetries = 10` and `retryDelayMs = 100` makes exactly 10 attempts,
sleeps 100 ms after each failed attempt (1000 ms in total), and then fails
with the last connection error — neither earlier nor indefinitely. -/
theorem connectWithRetry_exhausts_attempts (connect : Nat → Except String Unit)
    (err : Nat → String) (h : ∀ i, connect i = Except.error (err i)) :
    connectWithRetry connect 10 100
      = { attempts := 10, totalDelayMs := 1000, outcome := Except.error (err 9) } := by
  simp [connectWithRetry, retryLoop, h]

/-- Witness for C5: every attempt fails with "connection refused". -/
theorem connectWithRetry_exhausts_attempts_witness :
    connectWithRetry (fun _ => Except.error "connection refused") 10 100
      = { attempts := 10, totalDelayMs := 1000,
          outcome := Except.error "connection refused" } := by
  exact connectWithRetry_exhausts_attempts
    (fun _ => Except.error "connection refused")
    (fun _ => "connection refused") (fun _ => rfl)

/-- C1: for every sequence of canvas messages, disconnects, and timer
expirations delivered to one `spawnCanvasWithIPC` instance, the promise is
resolved exactly once, by the first terminal event; every event after it is
a no-op on the whole state (so after `selected`, a following `cancelled`
changes nothing). -/
theorem single_resolution {α : Type} (pre : List (Event α)) (e : Event α)
    (post : List (Event α))
    (hpre : ∀ x ∈ pre, x.isTerminal = false) (he : e.isTerminal = true) :
    run (initState α) (pre ++ e :: post) = step (initState α) e
      ∧ (step (initState α) e).resolved = true
      ∧ (step (initState α) e).result.isSome = true := by
  have hrun : run (initState α) (pre ++ e :: post)
      = run (step (initState α) e) post := by
    simp only [run, List.foldl_append, List.foldl_cons]
    rw [show List.foldl step (initState α) pre = initState α from
      run_init_nonterminal pre hpre]
  have hres : (step (initState α) e).resolved = true :=
    step_init_terminal_resolved e he
  refine ⟨?_, hres, ?_⟩
  · rw [hrun, run_of_resolved _ _ hres]
  · cases e with
    | message m =>
        cases m <;> simp_all [Event.isTerminal, step, handleMessage, initState,
          resolveWith]
    | disconnect => simp [step, initState, resolveWith]
    | ipcError msg => simp [step, initState, resolveWith]
    | timeout => simp [step, initState, sendToPeer, resolveWith]
    | spawnFailed msg => simp [step, initState, resolveWith]

/-- Witness for C1: `ready` then `selected 7` then `cancelled` — only the
first terminal event (`selected`) is observed. -/
theorem single_resolution_witness :
    (∀ x ∈ [Event.message (CanvasMessage.ready (α := Nat) "s")],
        x.isTerminal = false)
      ∧ (Event.message (CanvasMessage.selected (7 : Nat))).isTerminal = true
      ∧ run (initState Nat)
          ([Event.message (CanvasMessage.ready "s")]
            ++ Event.message (CanvasMessage.selected 7)
              :: [Event.message (CanvasMessage.cancelled none)])
          = step (initState Nat) (Event.message (CanvasMessage.selected 7)) := by
  refine ⟨by decide, by decide, ?_⟩
  exact (single_resolution
    [Event.message (CanvasMessage.ready "s")]
    (Event.message (CanvasMessage.selected 7))
    [Event.message (CanvasMessage.cancelled none)]
    (by decide) (by decide)).1

/-- Every result a run can resolve with has one of the three caller-visible
shapes: success-with-data, success-cancelled, or failure-with-error. -/
def resultShapeOk (r : CanvasResult α) : Prop :=
  (r.success = true ∧ r.data.isSome = true ∧ r.cancelled = none ∧ r.error = none)
    ∨ (r.success = true ∧ r.data = none ∧ r.cancelled = some true ∧ r.error = none)
    ∨ (r.success = false ∧ r.data = none ∧ r.cancelled = none ∧ r.error.isSome = true)

theorem step_preserves_shape (s : OrchState α) (e : Event α)
    (h : ∀ r, s.result = some r → resultShapeOk r) :
    ∀ r, (step s e).result = some r → resultShapeOk r := by
  intro r hr
  cases e with
  | message m =>
      cases m with
      | ready sc => exact h r (by simpa [step, handleMessage] using hr)
      | selected d =>
          by_cases hres : s.resolved
          · exact h r (by simpa [step, handleMessage, hres] using hr)
          · simp [step, handleMessage, hres, resolveWith] at hr
            subst hr
            left; simp
      | cancelled reason =>
          by_cases hres : s.resolved
          · exact h r (by simpa [step, handleMessage, hres] using hr)
          · simp [step, handleMessage, hres, resolveWith] at hr
            subst hr
            right; left; simp
      | error msg =>
          by_cases hres : s.resolved
          · exact h r (by simpa [step, handleMessage, hres] using hr)
          · simp [step, handleMessage, hres, resolveWith] at hr
            subst hr
            right; right; simp
      | pong => exact h r (by simpa [step, handleMessage] using hr)
      | selection d => exact h r (by simpa [step, handleMessage] using hr)
      | content d => exact h r (by simpa [step, handleMessage] using hr)
  | disconnect =>
      by_cases hres : s.resolved
      · exact h r (by simpa [step, hres] using hr)
      · simp [step, hres, resolveWith] at hr
        subst hr
        right; right; simp
  | ipcError msg =>
      by_cases hres : s.resolved
      · exact h r (by simpa [step, hres] using hr)
      · simp [step, hres, resolveWith] at hr
        subst hr
        right; right; simp
  | timeout =>
      by_cases hres : s.resolved
      · exact h r (by simpa [step, hres] using hr)
      · simp [step, hres, sendToPeer, resolveWith] at hr
        subst hr
        right; right; simp
  | spawnFailed msg =>
      by_cases hres : s.resolved
      · exact h r (by simpa [step, hres] using hr)
      · simp [step, hres, resolveWith] at hr
        subst hr
        right; right; simp

theorem run_preserves_shape (s : OrchState α) (evs : List (Event α))
    (h : ∀ r, s.result = some r → resultShapeOk r) :
    ∀ r, (run s evs).result = some r → resultShapeOk r := by
  induction evs generalizing s with
  | nil => exact h
  | cons e evs ih =>
      simp only [run, List.foldl_cons]
      exact ih (step s e) (step_preserves_shape s e h)

/-- C2: the first terminal event fixes the result by the switch in
`handleMessage` / the server callbacks: `selected d` gives success with the
data, `cancelled` gives success with `cancelled = true`, `error m` gives
failure with that message, a disconnect before any terminal message gives
failure "Canvas disconnected unexpectedly" — and any result a run can
produce has one of the three caller-visible shapes. -/
theorem first_terminal_result {α : Type} (pre : List (Event α))
    (hpre : ∀ x ∈ pre, x.isTerminal = false) (d : α) (m : String)
    (reason : Option String) :
    (run (initState α) (pre ++ [Event.message (CanvasMessage.selected d)])).result
        = some { success := true, data := some d, cancelled := none, error := none }
      ∧ (run (initState α)
          (pre ++ [Event.message (CanvasMessage.cancelled reason)])).result
        = some { success := true, data := none, cancelled := some true, error := none }
      ∧ (run (initState α) (pre ++ [Event.message (CanvasMessage.error m)])).result
        = some { success := false, data := none, cancelled := none, error := some m }
      ∧ (run (initState α) (pre ++ [Event.disconnect])).result
        = some { success := false, data := none, cancelled := none,
                 error := some "Canvas disconnected unexpectedly" }
      ∧ (∀ evs : List (Event α), ∀ r,
          (run (initState α) evs).result = some r → resultShapeOk r) := by
  have hbase : run (initState α) pre = initState α := run_init_nonterminal pre hpre
  refine ⟨?_, ?_, ?_, ?_, ?_⟩
  · simp only [run, List.foldl_append]
    rw [show List.foldl step (initState α) pre = initState α from hbase]
    simp [step, handleMessage, initState, resolveWith]
  · simp only [run, List.foldl_append]
    rw [show List.foldl step (initState α) pre = initState α from hbase]
    simp [step, handleMessage, initState, resolveWith]
  · simp only [run, List.foldl_append]
    rw [show List.foldl step (initState α) pre = initState α from hbase]
    simp [step, handleMessage, initState, resolveWith]
  · simp only [run, List.foldl_append]
    rw [show List.foldl step (initState α) pre = initState α from hbase]
    simp [step, initState, resolveWith]
  · intro evs r
    exact run_preserves_shape (initState α) evs (by simp [initState]) r

/-- Witness for C2 at `pre = [ready]`, `d = 7`, `m = "boom"`. -/
theorem first_terminal_result_witness :
    (run (initState Nat)
        ([Event.message (CanvasMessage.ready "s")]
          ++ [Event.message (CanvasMessage.selected 7)])).result
      = some { success := true, data := some 7, cancelled := none, error := none } := by
  exact (first_terminal_result [Event.message (CanvasMessage.ready "s")]
    (by decide) 7 "boom" none).1

/-- C3: if the timeout fires before any terminal event, the instance
resolves with failure "Timeout waiting for user selection", exactly one
`close` envelope was written to the peer, and the teardown trace shows the
close envelope sent strictly before the listener was closed and the
endpoint artifact removed. -/
theorem timeout_resolution {α : Type} (pre post : List (Event α))
    (hpre : ∀ x ∈ pre, x.isTerminal = false) :
    (run (initState α) (pre ++ Event.timeout :: post)).result
        = some { success := false, data := none, cancelled := none,
                 error := some "Timeout waiting for user selection" }
      ∧ (run (initState α) (pre ++ Event.timeout :: post)).sentToPeer
        = [ControllerMessage.close]
      ∧ (run (initState α) (pre ++ Event.timeout :: post)).trace
        = [TeardownAct.sentClose, TeardownAct.closedListener,
           TeardownAct.removedEndpoint]
      ∧ (run (initState α) (pre ++ Event.timeout :: post)).serverOpen = false
      ∧ (run (initState α) (pre ++ Event.timeout :: post)).socketExists = false := by
  have h1 := single_resolution pre (Event.timeout (α := α)) post hpre (by rfl)
  rw [h1.1]
  refine ⟨?_, ?_, ?_, ?_, ?_⟩ <;>
    simp [step, initState, sendToPeer, resolveWith]

/-- Witness for C3: `ready`, then the timer fires, then a late `selected`. -/
theorem timeout_resolution_witness :
    (run (initState Nat)
        ([Event.message (CanvasMessage.ready "s")]
          ++ Event.timeout :: [Event.message (CanvasMessage.selected 3)])).result
      = some { success := false, data := none, cancelled := none,
               error := some "Timeout waiting for user selection" } := by
  exact (timeout_resolution [Event.message (CanvasMessage.ready "s")]
    [Event.message (CanvasMessage.selected 3)] (by decide)).1

/-! Pane manager. `getCanvasScope` hashes the tmux context; here the scope
is an opaque string. A `World` carries the tmux panes and the per-scope
tracking files (`/tmp/...-<scope>.pane`); `none` is a missing file.
`getCanvasPaneId`, `findOrphanedPane`, `verifyPaneOwnership`,
`reuseExistingPane`, `createNewPane` and `spawnTmux` are modelled from
packages/core/src/terminal.ts; the spawner module defines the same
functions with identical logic (only the tracking-file prefix differs),
plus `findAllCanvasPanes`, `findCanvasProcessPanes`,
`scopeHasValidPaneFile` and `cleanupOrphanedPanes`. -/

/-- One tmux pane: its id, `pane_dead` state, the `@canvas-owner` option
(`none` when unset), and whether its process is recognizably running
canvas content (the `ps` command line contains "/canvases/" and
"index.tsx"). -/
structure Pane where
  id : String
  dead : Bool
  owner : Option String
  runsCanvas : Bool
deriving DecidableEq, Repr

structure World where
  scope : String
  paneFiles : String → Option String
  panes : List Pane

/-- Model of the `.trim()` calls of the source (strip leading and trailing
whitespace), implemented over the character list so that concrete instances
evaluate by kernel reduction. -/
def trimStr (s : String) : String :=
  ⟨((s.data.dropWhile Char.isWhitespace).reverse.dropWhile
      Char.isWhitespace).reverse⟩

/-- Write this content to a scope's tracking file (`Bun.write`). -/
def writePaneFile (w : World) (scope content : String) : World :=
  { w with paneFiles := fun s => if s = scope then some content else w.paneFiles s }

/-- `display-message -t paneId -p "#{pane_id}"` prints the pane's id iff
the pane exists. -/
def paneExists (w : World) (paneId : String) : Bool :=
  w.panes.any (fun p => p.id == paneId)

/-- `verifyPaneOwnership`: `show-options -p -t paneId -v @canvas-owner`
succeeds only for an existing pane whose option is set; the trimmed value
must equal this scope. -/
def verifyPaneOwnership (w : World) (paneId : String) : Bool :=
  match w.panes.find? (fun p => p.id == paneId) with
  | some p =>
      match p.owner with
      | some o => trimStr o == w.scope
      | none => false
  | none => false

/-- `findOrphanedPane`: first pane (in `list-panes` order) passing
`verifyPaneOwnership`. -/
def findOrphanedPane (w : World) : Option String :=
  (w.panes.find? (fun p => verifyPaneOwnership w p.id)).map (fun p => p.id)

/-- The tracking-file step of `getCanvasPaneId`: a pane named by the file
is returned only if it still exists and passes ownership verification; a
stale record is overwritten with "". -/
def getCanvasPaneIdFile (w : World) : Option String × World :=
  match w.paneFiles w.scope with
  | some content =>
      if trimStr content = "" then (none, w)
      else
        if paneExists w (trimStr content) && verifyPaneOwnership w (trimStr content) then
          (some (trimStr content), w)
        else (none, writePaneFile w w.scope "")
  | none => (none, w)

/-- `getCanvasPaneId`: try the tracking file; otherwise reclaim the first
orphaned pane carrying this scope's tag, writing it back to the file. -/
def getCanvasPaneId (w : World) : Option String × World :=
  match getCanvasPaneIdFile w with
  | (some pid, w') => (some pid, w')
  | (none, w') =>
      match findOrphanedPane w' with
      | some pid => (some pid, writePaneFile w' w.scope pid)
      | none => (none, w')

/-- `reuseExistingPane`: both its branches end in `respawn-pane -k`, which
succeeds precisely when the pane exists; the respawned pane runs the new
canvas command and is no longer dead. -/
def reuseExistingPane (w : World) (paneId : String) : Bool × World :=
  match w.panes.find? (fun p => p.id == paneId) with
  | none => (false, w)
  | some _ =>
      (true,
       { w with
         panes := w.panes.map (fun q =>
           if q.id = paneId then { q with dead := false, runsCanvas := true } else q) })

/-- `createNewPane`: `split-window` makes a fresh live pane (its id is the
`fresh` parameter), then `saveCanvasPaneId` records it in the tracking
file and tags it with this scope. Assumes tmux succeeds; the failure
branch is outside the claims considered here. -/
def createNewPane (w : World) (fresh : String) : Bool × World :=
  let w₁ := { w with panes := w.panes ++
    [{ id := fresh, dead := false, owner := none, runsCanvas := true }] }
  let w₂ := writePaneFile w₁ w.scope fresh
  let w₃ := { w₂ with panes := w₂.panes.map (fun q =>
    if q.id = fresh then { q with owner := some w.scope } else q) }
  (true, w₃)

inductive SpawnMethod where
  | reused (paneId : String)
  | created (paneId : String)
deriving DecidableEq, Repr

/-- `spawnTmux`: reuse the verified-owned pane when there is one; if reuse
fails, clear the stale tracking record and create a new pane. -/
def spawnTmux (w : World) (fresh : String) : SpawnMethod × World :=
  match getCanvasPaneId w with
  | (some pid, w₁) =>
      match reuseExistingPane w₁ pid with
      | (true, w₂) => (SpawnMethod.reused pid, w₂)
      | (false, w₂) =>
          let w₃ := writePaneFile w₂ w₂.scope ""
          (SpawnMethod.created fresh, (createNewPane w₃ fresh).2)
  | (none, w₁) => (SpawnMethod.created fresh, (createNewPane w₁ fresh).2)

/-- An external `kill-pane`, outside the pane manager's control. -/
def killPane (w : World) (paneId : String) : World :=
  { w with panes := w.panes.filter (fun p => p.id != paneId) }

/-- An external change of a pane's `@canvas-owner` option. -/
def retagPane (w : World) (paneId : String) (o : Option String) : World :=
  { w with panes := w.panes.map (fun q =>
    if q.id = paneId then { q with owner := o } else q) }

theorem writePaneFile_panes (w : World) (scope content : String) :
    (writePaneFile w scope content).panes = w.panes := rfl

theorem writePaneFile_scope (w : World) (scope content : String) :
    (writePaneFile w scope content).scope = w.scope := rfl

theorem getCanvasPaneIdFile_panes (w : World) :
    (getCanvasPaneIdFile w).2.panes = w.panes := by
  unfold getCanvasPaneIdFile
  split
  · split
    · rfl
    · split <;> rfl
  · rfl

theorem getCanvasPaneIdFile_scope (w : World) :
    (getCanvasPaneIdFile w).2.scope = w.scope := by
  unfold getCanvasPaneIdFile
  split
  · split
    · rfl
    · split <;> rfl
  · rfl

/-- The file step succeeds only with a pane that exists and verifies. -/
theorem getCanvasPaneIdFile_verified (w : World) (pid : String)
    (h : (getCanvasPaneIdFile w).1 = some pid) :
    paneExists w pid = true ∧ verifyPaneOwnership w pid = true := by
  unfold getCanvasPaneIdFile at h
  rcases hf : w.paneFiles w.scope with _ | content <;> simp only [hf] at h
  · simp at h
  · by_cases hblank : trimStr content = ""
    · simp [hblank] at h
    · by_cases hok : (paneExists w (trimStr content) && verifyPaneOwnership w (trimStr content)) = true
      · simp only [hblank, if_false, hok, if_true, reduceIte] at h
        have hid : trimStr content = pid := by simpa using h
        rw [← hid]
        exact ⟨Bool.and_elim_left hok, Bool.and_elim_right hok⟩
      · simp [hblank, hok] at h

theorem verifyPaneOwnership_spec (w : World) (q : String)
    (h : verifyPaneOwnership w q = true) :
    ∃ p ∈ w.panes, p.id = q ∧ ∃ o, p.owner = some o ∧ trimStr o = w.scope := by
  unfold verifyPaneOwnership at h
  rcases hfind : w.panes.find? (fun p => p.id == q) with _ | p <;>
    simp only [hfind] at h
  · simp at h
  · rcases ho : p.owner with _ | o <;> simp only [ho] at h
    · simp at h
    · refine ⟨p, List.mem_of_find?_eq_some hfind, ?_, o, ho, ?_⟩
      · have := List.find?_some hfind
        simpa using this
      · simpa using h

theorem findOrphanedPane_spec (w : World) (pid : String)
    (h : findOrphanedPane w = some pid) :
    ∃ p ∈ w.panes, p.id = pid ∧ ∃ o, p.owner = some o ∧ trimStr o = w.scope := by
  unfold findOrphanedPane at h
  rcases hfind : w.panes.find? (fun p => verifyPaneOwnership w p.id) with _ | p <;>
    simp only [hfind] at h
  · simp at h
  · have hid : p.id = pid := by simpa using h
    have hpred := List.find?_some hfind
    exact hid ▸ verifyPaneOwnership_spec w p.id (by simpa using hpred)

theorem getCanvasPaneId_panes (w : World) :
    (getCanvasPaneId w).2.panes = w.panes := by
  unfold getCanvasPaneId
  rcases hfile : getCanvasPaneIdFile w with ⟨opid, w'⟩
  have hw' : w'.panes = w.panes := by
    rw [← getCanvasPaneIdFile_panes w, hfile]
  cases opid with
  | some pid => simpa using hw'
  | none =>
      rcases horph : findOrphanedPane w' with _ | q <;>
        simp [horph, writePaneFile, hw']

theorem getCanvasPaneId_scope (w : World) :
    (getCanvasPaneId w).2.scope = w.scope := by
  unfold getCanvasPaneId
  rcases hfile : getCanvasPaneIdFile w with ⟨opid, w'⟩
  have hw' : w'.scope = w.scope := by
    rw [← getCanvasPaneIdFile_scope w, hfile]
  cases opid with
  | some pid => simpa using hw'
  | none =>
      rcases horph : findOrphanedPane w' with _ | q <;>
        simp [horph, writePaneFile, hw']

/-- A pane id delivered by `getCanvasPaneId` always names an existing pane
whose ownership tag verifies against this scope. -/
theorem getCanvasPaneId_owned (w : World) (pid : String)
    (h : (getCanvasPaneId w).1 = some pid) :
    ∃ p ∈ w.panes, p.id = pid ∧ ∃ o, p.owner = some o ∧ trimStr o = w.scope := by
  unfold getCanvasPaneId at h
  rcases hfile : getCanvasPaneIdFile w with ⟨opid, w'⟩
  rw [hfile] at h
  have hw'p : w'.panes = w.panes := by
    rw [← getCanvasPaneIdFile_panes w, hfile]
  have hw's : w'.scope = w.scope := by
    rw [← getCanvasPaneIdFile_scope w, hfile]
  cases opid with
  | some q =>
      simp only [Option.some.injEq] at h
      subst h
      exact verifyPaneOwnership_spec w q
        (getCanvasPaneIdFile_verified w q (by rw [hfile])).2
  | none =>
      rcases horph : findOrphanedPane w' with _ | q <;> simp only [horph] at h
      · simp at h
      · simp only [Option.some.injEq] at h
        subst h
        have := findOrphanedPane_spec w' q horph
        rw [hw'p, hw's] at this
        exact this

theorem find?_append_left_none {α : Type} (p : α → Bool) (l₁ l₂ : List α)
    (h : ∀ x ∈ l₁, ¬ p x = true) : (l₁ ++ l₂).find? p = l₂.find? p := by
  induction l₁ with
  | nil => rfl
  | cons a as ih =>
      have ha : ¬ p a = true := h a (List.mem_cons_self a as)
      simp only [List.cons_append, List.find?_cons_of_neg _ (by simpa using ha)]
      exact ih fun x hx => h x (List.mem_cons_of_mem a hx)

theorem map_ite_id (l : List Pane) (fresh : String) (f : Pane → Pane)
    (h : ∀ p ∈ l, ¬ p.id = fresh) :
    l.map (fun q => if q.id = fresh then f q else q) = l := by
  induction l with
  | nil => rfl
  | cons p ps ih =>
      have hp : ¬ p.id = fresh := h p (List.mem_cons_self p ps)
      simp only [List.map_cons, if_neg hp]
      rw [ih fun x hx => h x (List.mem_cons_of_mem p hx)]

/-- No pane of `w` carries a tag verifying against `w.scope`. -/
theorem verifyPaneOwnership_eq_false (w : World)
    (h : ∀ p ∈ w.panes, ∀ s, p.owner = some s → ¬ trimStr s = w.scope)
    (pid : String) : verifyPaneOwnership w pid = false := by
  unfold verifyPaneOwnership
  rcases hfind : w.panes.find? (fun p => p.id == pid) with _ | p
  · simp [hfind]
  · rcases ho : p.owner with _ | s
    · simp [hfind, ho]
    · have hne := h p (List.mem_of_find?_eq_some hfind) s ho
      simp [hfind, ho, hne]

theorem findOrphanedPane_eq_none (w : World)
    (h : ∀ p ∈ w.panes, ∀ s, p.owner = some s → ¬ trimStr s = w.scope) :
    findOrphanedPane w = none := by
  unfold findOrphanedPane
  rw [List.find?_eq_none.mpr]
  · rfl
  · intro p _
    simp [verifyPaneOwnership_eq_false w h p.id]

theorem createNewPane_scope (w : World) (fresh : String) :
    (createNewPane w fresh).2.scope = w.scope := rfl

theorem createNewPane_paneFiles (w : World) (fresh s : String) :
    (createNewPane w fresh).2.paneFiles s
      = if s = w.scope then some fresh else w.paneFiles s := rfl

theorem createNewPane_panes (w : World) (fresh : String)
    (h : ∀ p ∈ w.panes, ¬ p.id = fresh) :
    (createNewPane w fresh).2.panes
      = w.panes ++ [{ id := fresh, dead := false, owner := some w.scope,
                      runsCanvas := true }] := by
  unfold createNewPane writePaneFile
  simp only [List.map_append]
  rw [map_ite_id w.panes fresh _ h]
  simp

/-- C6: under one scope, first spawn creates a pane; a second spawn with
the pane still alive and carrying this scope's tag reuses the same pane
id; if the pane was externally killed or externally retagged so ownership
verification fails, the tracking record ends up cleared/rewritten and a
new pane is created; and in general a reused pane always exists and
carries a tag verifying against the current scope — a pane failing
ownership verification is never reused. -/
theorem pane_reuse_and_ownership (w₀ : World) (fresh₁ fresh₂ : String)
    (o : Option String)
    (hfile : w₀.paneFiles w₀.scope = none)
    (huntagged : ∀ p ∈ w₀.panes, p.owner = none)
    (hids : ∀ p ∈ w₀.panes, ¬ p.id = fresh₁)
    (hf₁ : trimStr fresh₁ = fresh₁) (hf₁ne : ¬ fresh₁ = "")
    (hscope : trimStr w₀.scope = w₀.scope)
    (ho : ∀ s, o = some s → ¬ trimStr s = w₀.scope) :
    (spawnTmux w₀ fresh₁).1 = SpawnMethod.created fresh₁
      ∧ (spawnTmux (spawnTmux w₀ fresh₁).2 fresh₂).1 = SpawnMethod.reused fresh₁
      ∧ (spawnTmux (killPane (spawnTmux w₀ fresh₁).2 fresh₁) fresh₂).1
          = SpawnMethod.created fresh₂
      ∧ (spawnTmux (killPane (spawnTmux w₀ fresh₁).2 fresh₁) fresh₂).2.paneFiles
          w₀.scope = some fresh₂
      ∧ (spawnTmux (retagPane (spawnTmux w₀ fresh₁).2 fresh₁ o) fresh₂).1
          = SpawnMethod.created fresh₂
      ∧ (∀ (w : World) (fresh pid : String),
          (spawnTmux w fresh).1 = SpawnMethod.reused pid →
          ∃ p ∈ w.panes, p.id = pid ∧ ∃ ow, p.owner = some ow ∧ trimStr ow = w.scope)
    := by
  -- first spawn: nothing to reuse, creates fresh₁
  have hgf0 : getCanvasPaneIdFile w₀ = (none, w₀) := by
    unfold getCanvasPaneIdFile
    rw [hfile]
  have horph0 : findOrphanedPane w₀ = none :=
    findOrphanedPane_eq_none w₀ (by
      intro p hp s hs
      rw [huntagged p hp] at hs
      exact absurd hs (by simp))
  have hg0 : getCanvasPaneId w₀ = (none, w₀) := by
    unfold getCanvasPaneId
    simp only [hgf0, horph0]
  have hspawn1 : spawnTmux w₀ fresh₁
      = (SpawnMethod.created fresh₁, (createNewPane w₀ fresh₁).2) := by
    unfold spawnTmux
    simp only [hg0]
  -- the world after the first spawn
  have hW1panes : (createNewPane w₀ fresh₁).2.panes
      = w₀.panes ++ [{ id := fresh₁, dead := false, owner := some w₀.scope,
                       runsCanvas := true }] := createNewPane_panes w₀ fresh₁ hids
  have hW1scope : (createNewPane w₀ fresh₁).2.scope = w₀.scope := rfl
  have hW1file : (createNewPane w₀ fresh₁).2.paneFiles w₀.scope = some fresh₁ := by
    rw [createNewPane_paneFiles, if_pos rfl]
  have hidsBeq : ∀ p ∈ w₀.panes, ¬ (p.id == fresh₁) = true := by
    intro p hp
    simpa using hids p hp
  -- second spawn with the pane alive and tagged: reuses fresh₁
  have hex1 : paneExists (createNewPane w₀ fresh₁).2 fresh₁ = true := by
    unfold paneExists
    rw [hW1panes]
    simp
  have hver1 : verifyPaneOwnership (createNewPane w₀ fresh₁).2 fresh₁ = true := by
    unfold verifyPaneOwnership
    rw [hW1panes, find?_append_left_none _ _ _ hidsBeq]
    simp [hW1scope, hscope]
  have hgf1 : getCanvasPaneIdFile (createNewPane w₀ fresh₁).2
      = (some fresh₁, (createNewPane w₀ fresh₁).2) := by
    unfold getCanvasPaneIdFile
    simp only [hW1scope, hW1file, hf₁, if_neg hf₁ne, hex1, hver1,
      Bool.and_self, if_pos]
  have hg1 : getCanvasPaneId (createNewPane w₀ fresh₁).2
      = (some fresh₁, (createNewPane w₀ fresh₁).2) := by
    unfold getCanvasPaneId
    simp only [hgf1]
  have hreuse1 : (reuseExistingPane (createNewPane w₀ fresh₁).2 fresh₁).1 = true := by
    unfold reuseExistingPane
    rw [hW1panes, find?_append_left_none _ _ _ hidsBeq]
    simp
  -- the killed world: back to the original panes
  have hWKpanes : (killPane (createNewPane w₀ fresh₁).2 fresh₁).panes = w₀.panes := by
    unfold killPane
    rw [hW1panes]
    simp only [List.filter_append]
    rw [List.filter_eq_self.mpr (by intro p hp; simpa using hids p hp)]
    simp
  have hWKscope : (killPane (createNewPane w₀ fresh₁).2 fresh₁).scope = w₀.scope := rfl
  have hWKfile : (killPane (createNewPane w₀ fresh₁).2 fresh₁).paneFiles w₀.scope
      = some fresh₁ := hW1file
  have hexK : paneExists (killPane (createNewPane w₀ fresh₁).2 fresh₁) fresh₁
      = false := by
    unfold paneExists
    rw [hWKpanes]
    simp only [List.any_eq_false]
    intro p hp
    simpa using hids p hp
  have hgfK : getCanvasPaneIdFile (killPane (createNewPane w₀ fresh₁).2 fresh₁)
      = (none, writePaneFile (killPane (createNewPane w₀ fresh₁).2 fresh₁)
          w₀.scope "") := by
    unfold getCanvasPaneIdFile
    simp only [hWKscope, hWKfile, hf₁, if_neg hf₁ne, hexK, Bool.false_and,
      Bool.false_eq_true, if_false]
  have horphK : findOrphanedPane (writePaneFile
      (killPane (createNewPane w₀ fresh₁).2 fresh₁) w₀.scope "") = none := by
    apply findOrphanedPane_eq_none
    intro p hp s hs
    rw [writePaneFile_panes] at hp
    rw [hWKpanes] at hp
    rw [huntagged p hp] at hs
    exact absurd hs (by simp)
  have hgK : getCanvasPaneId (killPane (createNewPane w₀ fresh₁).2 fresh₁)
      = (none, writePaneFile (killPane (createNewPane w₀ fresh₁).2 fresh₁)
          w₀.scope "") := by
    unfold getCanvasPaneId
    simp only [hgfK, horphK]
  have hspawnK : spawnTmux (killPane (createNewPane w₀ fresh₁).2 fresh₁) fresh₂
      = (SpawnMethod.created fresh₂,
         (createNewPane (writePaneFile (killPane (createNewPane w₀ fresh₁).2 fresh₁)
           w₀.scope "") fresh₂).2) := by
    unfold spawnTmux
    simp only [hgK]
  -- the retagged world: ownership verification fails, never reused
  have hWRpanes : (retagPane (createNewPane w₀ fresh₁).2 fresh₁ o).panes
      = w₀.panes ++ [{ id := fresh₁, dead := false, owner := o,
                       runsCanvas := true }] := by
    unfold retagPane
    rw [hW1panes]
    simp only [List.map_append]
    rw [map_ite_id w₀.panes fresh₁ _ hids]
    simp
  have hWRscope : (retagPane (createNewPane w₀ fresh₁).2 fresh₁ o).scope
      = w₀.scope := rfl
  have hWRfile : (retagPane (createNewPane w₀ fresh₁).2 fresh₁ o).paneFiles w₀.scope
      = some fresh₁ := hW1file
  have hWRuntag : ∀ p ∈ (retagPane (createNewPane w₀ fresh₁).2 fresh₁ o).panes,
      ∀ s, p.owner = some s →
      ¬ trimStr s = (retagPane (createNewPane w₀ fresh₁).2 fresh₁ o).scope := by
    rw [hWRpanes, hWRscope]
    intro p hp s hs
    rcases List.mem_append.mp hp with hp0 | hpn
    · rw [huntagged p hp0] at hs
      exact absurd hs (by simp)
    · have : p.owner = o := by
        simp only [List.mem_singleton] at hpn
        rw [hpn]
      exact ho s (by rw [← this, hs])
  have hverR : verifyPaneOwnership (retagPane (createNewPane w₀ fresh₁).2 fresh₁ o)
      fresh₁ = false := verifyPaneOwnership_eq_false _ hWRuntag fresh₁
  have hgfR : getCanvasPaneIdFile (retagPane (createNewPane w₀ fresh₁).2 fresh₁ o)
      = (none, writePaneFile (retagPane (createNewPane w₀ fresh₁).2 fresh₁ o)
          w₀.scope "") := by
    unfold getCanvasPaneIdFile
    simp only [hWRscope, hWRfile, hf₁, if_neg hf₁ne, hverR, Bool.and_false,
      Bool.false_eq_true, if_false]
  have horphR : findOrphanedPane (writePaneFile
      (retagPane (createNewPane w₀ fresh₁).2 fresh₁ o) w₀.scope "") = none := by
    apply findOrphanedPane_eq_none
    intro p hp s hs
    rw [writePaneFile_panes] at hp
    exact hWRuntag p hp s hs
  have hgR : getCanvasPaneId (retagPane (createNewPane w₀ fresh₁).2 fresh₁ o)
      = (none, writePaneFile (retagPane (createNewPane w₀ fresh₁).2 fresh₁ o)
          w₀.scope "") := by
    unfold getCanvasPaneId
    simp only [hgfR, horphR]
  refine ⟨by rw [hspawn1], ?_, ?_, ?_, ?_, ?_⟩
  · rw [hspawn1]
    unfold spawnTmux
    simp only [hg1]
    rcases hr : reuseExistingPane (createNewPane w₀ fresh₁).2 fresh₁ with ⟨b, w₂⟩
    have hb : b = true := by rw [← hreuse1, hr]
    subst hb
    rfl
  · rw [hspawn1]
    rw [hspawnK]
  · rw [hspawn1, hspawnK]
    rw [createNewPane_paneFiles]
    rw [writePaneFile_scope, hWKscope]
    simp
  · rw [hspawn1]
    unfold spawnTmux
    simp only [hgR]
  · intro w fresh pid h
    unfold spawnTmux at h
    rcases hg : getCanvasPaneId w with ⟨og, w₁⟩
    rw [hg] at h
    cases og with
    | none => simp at h
    | some q =>
        rcases hr : reuseExistingPane w₁ q with ⟨b, w₂⟩
        simp only [hr] at h
        cases b with
        | false => simp at h
        | true =>
            have hq : q = pid := by simpa using h
            subst hq
            exact getCanvasPaneId_owned w q (by rw [hg])

/-- Witness for C6: empty tmux world, scope "sc", panes "p1" then "p2". -/
theorem pane_reuse_and_ownership_witness :
    (spawnTmux { scope := "sc", paneFiles := fun _ => none, panes := [] } "p1").1
        = SpawnMethod.created "p1"
      ∧ (spawnTmux
          (spawnTmux { scope := "sc", paneFiles := fun _ => none, panes := [] }
            "p1").2 "p2").1 = SpawnMethod.reused "p1" := by
  have h := pane_reuse_and_ownership
    { scope := "sc", paneFiles := fun _ => none, panes := [] }
    "p1" "p2" (some "xx") rfl (by simp) (by simp) (by decide) (by decide)
    (by decide) (by intro s hs; simp at hs; subst hs; decide)
  exact ⟨h.1, h.2.1⟩

/-! Orphan cleanup (spawner module): `findAllCanvasPanes`,
`findCanvasProcessPanes`, `scopeHasValidPaneFile`, `cleanupOrphanedPanes`. -/

inductive OrphanReason where
  | dead
  | ownerScopeHasNoPaneFile
  | legacyUntagged
deriving DecidableEq, Repr

structure OrphanedPane where
  id : String
  reason : OrphanReason
deriving DecidableEq, Repr

structure CleanupResult where
  found : List OrphanedPane
  closed : Nat
deriving DecidableEq, Repr

/-- `findAllCanvasPanes`: every pane whose `@canvas-owner` option is set to
a non-blank value, as (pane id, trimmed owner) pairs in `list-panes`
order. -/
def findAllCanvasPanes (w : World) : List (String × String) :=
  w.panes.filterMap (fun p =>
    match p.owner with
    | some o => if trimStr o = "" then none else some (p.id, trimStr o)
    | none => none)

/-- `findCanvasProcessPanes`: ids of the panes whose process command line
marks them as running canvas content ("/canvases/" and "index.tsx"). -/
def findCanvasProcessPanes (w : World) : List String :=
  (w.panes.filter (fun p => p.runsCanvas)).map (fun p => p.id)

/-- `scopeHasValidPaneFile`: the scope's tracking file exists with
non-blank content. The content is not compared to any pane id. -/
def scopeHasValidPaneFile (w : World) (scope : String) : Bool :=
  match w.paneFiles scope with
  | some content => !(trimStr content == "")
  | none => false

/-- `display-message -t id -p "#{pane_dead}"` prints "1" only for an
existing dead pane; for a missing pane the command fails. -/
def paneDead (w : World) (paneId : String) : Bool :=
  match w.panes.find? (fun p => p.id == paneId) with
  | some p => p.dead
  | none => false

/-- The body of the first cleanup loop, per tagged pane `t = (id, owner)`:
skip the caller's own verified current pane; a dead pane is orphaned; an
alive pane of a different scope whose tracking file is missing or blank is
orphaned. Unless `dryRun`, an orphan is killed on the spot. -/
def cleanupStep1 (cs : String) (cur : Option String) (dryRun : Bool)
    (acc : List OrphanedPane × Nat × World) (t : String × String) :
    List OrphanedPane × Nat × World :=
  if cur = some t.1 ∧ t.2 = cs then acc
  else if paneDead acc.2.2 t.1 then
    if dryRun then (acc.1 ++ [⟨t.1, OrphanReason.dead⟩], acc.2.1, acc.2.2)
    else (acc.1 ++ [⟨t.1, OrphanReason.dead⟩], acc.2.1 + 1, killPane acc.2.2 t.1)
  else if ¬ t.2 = cs ∧ scopeHasValidPaneFile acc.2.2 t.2 = false then
    if dryRun then
      (acc.1 ++ [⟨t.1, OrphanReason.ownerScopeHasNoPaneFile⟩], acc.2.1, acc.2.2)
    else
      (acc.1 ++ [⟨t.1, OrphanReason.ownerScopeHasNoPaneFile⟩], acc.2.1 + 1,
       killPane acc.2.2 t.1)
  else acc

/-- The body of the second cleanup loop, per pane id running canvas
content: skip panes already processed as tagged and the caller's current
pane; the rest are legacy orphans, killed unless `dryRun`. -/
def cleanupStep2 (processedIds : List String) (cur : Option String)
    (dryRun : Bool) (acc : List OrphanedPane × Nat × World) (pid : String) :
    List OrphanedPane × Nat × World :=
  if processedIds.contains pid then acc
  else if cur = some pid then acc
  else if dryRun then
    (acc.1 ++ [⟨pid, OrphanReason.legacyUntagged⟩], acc.2.1, acc.2.2)
  else
    (acc.1 ++ [⟨pid, OrphanReason.legacyUntagged⟩], acc.2.1 + 1,
     killPane acc.2.2 pid)

/-- `cleanupOrphanedPanes` (spawner module): resolve the caller's current
pane (this can rewrite the tracking file), walk the tagged panes, then walk
the panes running canvas content, collecting (and unless `dryRun`,
killing) every orphan. -/
def cleanupOrphanedPanes (w : World) (dryRun : Bool) : CleanupResult × World :=
  let currentScope := w.scope
  let g := getCanvasPaneId w
  let taggedPanes := findAllCanvasPanes g.2
  let phase1 := taggedPanes.foldl (cleanupStep1 currentScope g.1 dryRun)
    ([], 0, g.2)
  let processedIds := taggedPanes.map (fun t => t.1)
  let phase2 := (findCanvasProcessPanes phase1.2.2).foldl
    (cleanupStep2 processedIds g.1 dryRun) phase1
  ({ found := phase2.1, closed := phase2.2.1 }, phase2.2.2)

/-- Concrete world refuting the claim that a live pane is orphaned whenever
its owning scope's tracking record does not point at it: one alive pane
"p1" tagged by scope "bbbb", while "bbbb"'s tracking file exists but names
a different pane "zz". -/
def cexWorld : World :=
  { scope := "aaaa"
    paneFiles := fun s => if s = "bbbb" then some "zz" else none
    panes := [{ id := "p1", dead := false, owner := some "bbbb",
                runsCanvas := true }] }

/-- Remove from `w` every pane whose id is in `ks` (a batch of
`kill-pane` calls). -/
def applyKills (w : World) (ks : List String) : World :=
  { w with panes := w.panes.filter (fun p => !(ks.contains p.id)) }

theorem applyKills_nil (w : World) : applyKills w [] = w := by
  unfold applyKills
  have h : w.panes.filter (fun p => !(([] : List String).contains p.id)) = w.panes :=
    List.filter_eq_self.mpr (fun a _ => rfl)
  rw [h]

theorem killPane_eq_applyKills (w : World) (pid : String) :
    killPane w pid = applyKills w [pid] := by
  unfold killPane applyKills
  have heq : w.panes.filter (fun p => p.id != pid)
      = w.panes.filter (fun p => !(([pid] : List String).contains p.id)) :=
    List.filter_congr (fun a _ => by
      by_cases hd : a.id = pid <;> simp [List.contains, bne, hd])
  rw [heq]

theorem not_contains_append (k₁ k₂ : List String) (x : String) :
    (!((k₁ ++ k₂).contains x)) = (!(k₂.contains x) && !(k₁.contains x)) := by
  have happ : (k₁ ++ k₂).contains x = (k₁.contains x || k₂.contains x) := by
    by_cases h1 : x ∈ k₁ <;> by_cases h2 : x ∈ k₂ <;>
      simp [List.contains, h1, h2]
  rw [happ, Bool.not_or, Bool.and_comm]

theorem applyKills_applyKills (w : World) (k₁ k₂ : List String) :
    applyKills (applyKills w k₁) k₂ = applyKills w (k₁ ++ k₂) := by
  unfold applyKills
  have heq : (w.panes.filter (fun p => !(k₁.contains p.id))).filter
        (fun p => !(k₂.contains p.id))
      = w.panes.filter (fun p => !((k₁ ++ k₂).contains p.id)) := by
    rw [List.filter_filter]
    exact List.filter_congr (fun a _ => (not_contains_append k₁ k₂ a.id).symm)
  rw [heq]

theorem contains_append_false (k₁ k₂ : List String) (x : String)
    (h₁ : k₁.contains x = false) (h₂ : k₂.contains x = false) :
    (k₁ ++ k₂).contains x = false := by
  have hn := not_contains_append k₁ k₂ x
  rw [h₁, h₂] at hn
  cases hc : (k₁ ++ k₂).contains x
  · rfl
  · rw [hc] at hn
    simp at hn

theorem contains_singleton_false (x y : String) (h : ¬ x = y) :
    ([y] : List String).contains x = false := by
  simp [List.contains, h]

theorem contains_eq_false_iff (l : List String) (x : String) :
    l.contains x = false ↔ ¬ x ∈ l := by
  simp [List.contains]

theorem contains_eq_true_iff (l : List String) (x : String) :
    l.contains x = true ↔ x ∈ l := by
  simp [List.contains]

theorem find?_filter_not_killed (l : List Pane) (ks : List String) (pid : String)
    (h : ks.contains pid = false) :
    (l.filter (fun p => !(ks.contains p.id))).find? (fun p => p.id == pid)
      = l.find? (fun p => p.id == pid) := by
  induction l with
  | nil => rfl
  | cons p ps ih =>
      by_cases hid : p.id = pid
      · subst hid
        have hm : p.id ∉ ks := (contains_eq_false_iff ks p.id).mp h
        have hkeep : (p :: ps).filter (fun q => !(ks.contains q.id))
            = p :: ps.filter (fun q => !(ks.contains q.id)) := by
          rw [List.filter_cons]
          simp [hm]
        rw [hkeep,
            List.find?_cons_of_pos (ps.filter fun q => !(ks.contains q.id))
              (by simp),
            List.find?_cons_of_pos ps (by simp)]
      · cases hk : ks.contains p.id
        · have hm : p.id ∉ ks := (contains_eq_false_iff ks p.id).mp hk
          have hkeep : (p :: ps).filter (fun q => !(ks.contains q.id))
              = p :: ps.filter (fun q => !(ks.contains q.id)) := by
            rw [List.filter_cons]
            simp [hm]
          rw [hkeep,
              List.find?_cons_of_neg (ps.filter fun q => !(ks.contains q.id))
                (by simp [hid]),
              List.find?_cons_of_neg ps (by simp [hid])]
          exact ih
        · have hm : p.id ∈ ks := (contains_eq_true_iff ks p.id).mp hk
          have hdrop : (p :: ps).filter (fun q => !(ks.contains q.id))
              = ps.filter (fun q => !(ks.contains q.id)) := by
            rw [List.filter_cons]
            simp [hm]
          rw [hdrop, List.find?_cons_of_neg ps (by simp [hid])]
          exact ih

theorem paneDead_applyKills (w : World) (ks : List String) (pid : String)
    (h : ks.contains pid = false) :
    paneDead (applyKills w ks) pid = paneDead w pid := by
  unfold paneDead applyKills
  rw [find?_filter_not_killed w.panes ks pid h]

theorem scopeHasValidPaneFile_applyKills (w : World) (ks : List String)
    (sc : String) :
    scopeHasValidPaneFile (applyKills w ks) sc = scopeHasValidPaneFile w sc := rfl

/-- The declarative orphan classification of one tagged pane
`t = (id, trimmed owner)`, evaluated against the stable world `w`: the
caller's own verified current pane is never orphaned; otherwise a pane is
orphaned iff it is dead, or it is alive, owned by a different scope, and
that scope's tracking file is missing or blank. -/
def phase1Entry (w : World) (cs : String) (cur : Option String)
    (t : String × String) : Option OrphanedPane :=
  if cur = some t.1 ∧ t.2 = cs then none
  else if paneDead w t.1 then some ⟨t.1, OrphanReason.dead⟩
  else if ¬ t.2 = cs ∧ scopeHasValidPaneFile w t.2 = false then
    some ⟨t.1, OrphanReason.ownerScopeHasNoPaneFile⟩
  else none

/-- The declarative classification of one pane id running canvas content:
a legacy orphan unless it is tagged (already processed) or is the caller's
current pane. -/
def phase2Entry (processedIds : List String) (cur : Option String)
    (pid : String) : Option OrphanedPane :=
  if processedIds.contains pid then none
  else if cur = some pid then none
  else some ⟨pid, OrphanReason.legacyUntagged⟩

theorem phase1Entry_id (w : World) (cs : String) (cur : Option String)
    (t : String × String) (e : OrphanedPane)
    (h : phase1Entry w cs cur t = some e) : e.id = t.1 := by
  unfold phase1Entry at h
  split at h
  · exact absurd h (by simp)
  · split at h
    · obtain rfl : (⟨t.1, OrphanReason.dead⟩ : OrphanedPane) = e := by
        simpa using h
      rfl
    · split at h
      · obtain rfl : (⟨t.1, OrphanReason.ownerScopeHasNoPaneFile⟩ : OrphanedPane)
            = e := by simpa using h
        rfl
      · exact absurd h (by simp)

/-- Phase 1 of `cleanupOrphanedPanes`, characterized declaratively: as long
as the remaining tagged panes have distinct ids none of which was already
killed, the loop appends exactly the `phase1Entry` classification of each,
counts the kills, and kills exactly the found panes (none under dryRun). -/
theorem foldl_cleanupStep1 (w₁ : World) (cs : String) (cur : Option String)
    (dryRun : Bool) :
    ∀ (ts : List (String × String)) (out : List OrphanedPane) (closed : Nat)
      (ks : List String),
      (∀ t ∈ ts, ks.contains t.1 = false) →
      ((ts.map (fun t => t.1)).Nodup) →
      ts.foldl (cleanupStep1 cs cur dryRun) (out, closed, applyKills w₁ ks)
        = (out ++ ts.filterMap (phase1Entry w₁ cs cur),
           closed + (if dryRun then 0
             else (ts.filterMap (phase1Entry w₁ cs cur)).length),
           applyKills w₁ (ks ++ (if dryRun then []
             else (ts.filterMap (phase1Entry w₁ cs cur)).map (fun e => e.id)))) := by
  intro ts
  induction ts with
  | nil =>
      intro out closed ks _ _
      cases dryRun <;> simp [List.foldl_nil]
  | cons t ts ih =>
      intro out closed ks hks hnd
      have hkt : ks.contains t.1 = false := hks t (List.mem_cons_self t ts)
      have hks' : ∀ x ∈ ts, ks.contains x.1 = false :=
        fun x hx => hks x (List.mem_cons_of_mem t hx)
      have hnd' : (ts.map (fun t => t.1)).Nodup := by
        simpa using (List.nodup_cons.mp (by simpa using hnd)).2
      have hnotin : t.1 ∉ ts.map (fun t => t.1) :=
        (List.nodup_cons.mp (by simpa using hnd)).1
      have hdead : paneDead (applyKills w₁ ks) t.1 = paneDead w₁ t.1 :=
        paneDead_applyKills w₁ ks t.1 hkt
      simp only [List.foldl_cons]
      by_cases hskip : cur = some t.1 ∧ t.2 = cs
      · have hstep : cleanupStep1 cs cur dryRun (out, closed, applyKills w₁ ks) t
            = (out, closed, applyKills w₁ ks) := by
          unfold cleanupStep1
          rw [if_pos hskip]
        have hent : phase1Entry w₁ cs cur t = none := by
          unfold phase1Entry
          rw [if_pos hskip]
        rw [hstep, ih out closed ks hks' hnd']
        simp [List.filterMap_cons, hent]
      · by_cases hd : paneDead w₁ t.1 = true
        · have hent : phase1Entry w₁ cs cur t
              = some ⟨t.1, OrphanReason.dead⟩ := by
            unfold phase1Entry
            rw [if_neg hskip, if_pos hd]
          cases dryRun with
          | true =>
              have hstep : cleanupStep1 cs cur true (out, closed, applyKills w₁ ks) t
                  = (out ++ [⟨t.1, OrphanReason.dead⟩], closed, applyKills w₁ ks) := by
                unfold cleanupStep1
                rw [if_neg hskip]
                simp only [hdead, hd, if_pos, if_true]
              rw [hstep, ih _ _ ks hks' hnd']
              simp [List.filterMap_cons, hent]
          | false =>
              have hstep : cleanupStep1 cs cur false (out, closed, applyKills w₁ ks) t
                  = (out ++ [⟨t.1, OrphanReason.dead⟩], closed + 1,
                     applyKills w₁ (ks ++ [t.1])) := by
                unfold cleanupStep1
                rw [if_neg hskip]
                simp only [hdead, hd, if_pos, if_true, if_false, Bool.false_eq_true]
                rw [killPane_eq_applyKills, applyKills_applyKills]
              have hks2 : ∀ x ∈ ts, (ks ++ [t.1]).contains x.1 = false := by
                intro x hx
                refine contains_append_false ks [t.1] x.1 (hks' x hx) ?_
                exact contains_singleton_false x.1 t.1
                  (fun hxeq => hnotin (hxeq ▸ List.mem_map_of_mem _ hx))
              rw [hstep, ih _ _ (ks ++ [t.1]) hks2 hnd']
              simp only [List.filterMap_cons, hent, List.map_cons,
                List.append_assoc, List.singleton_append, List.length_cons,
                Bool.false_eq_true, if_false, Prod.mk.injEq]
              refine ⟨by simp, by omega, by simp⟩
        · by_cases hfile : ¬ t.2 = cs ∧ scopeHasValidPaneFile w₁ t.2 = false
          · have hent : phase1Entry w₁ cs cur t
                = some ⟨t.1, OrphanReason.ownerScopeHasNoPaneFile⟩ := by
              unfold phase1Entry
              rw [if_neg hskip, if_neg (by simpa using hd), if_pos hfile]
            cases dryRun with
            | true =>
                have hstep : cleanupStep1 cs cur true (out, closed, applyKills w₁ ks) t
                    = (out ++ [⟨t.1, OrphanReason.ownerScopeHasNoPaneFile⟩], closed,
                       applyKills w₁ ks) := by
                  unfold cleanupStep1
                  rw [if_neg hskip]
                  rw [hdead]
                  rw [if_neg (by simpa using hd)]
                  rw [if_pos (by
                    simpa [scopeHasValidPaneFile_applyKills] using hfile)]
                  simp
                rw [hstep, ih _ _ ks hks' hnd']
                simp [List.filterMap_cons, hent]
            | false =>
                have hstep : cleanupStep1 cs cur false (out, closed, applyKills w₁ ks) t
                    = (out ++ [⟨t.1, OrphanReason.ownerScopeHasNoPaneFile⟩], closed + 1,
                       applyKills w₁ (ks ++ [t.1])) := by
                  unfold cleanupStep1
                  rw [if_neg hskip]
                  rw [hdead]
                  rw [if_neg (by simpa using hd)]
                  rw [if_pos (by
                    simpa [scopeHasValidPaneFile_applyKills] using hfile)]
                  simp only [if_false, Bool.false_eq_true]
                  rw [killPane_eq_applyKills, applyKills_applyKills]
                have hks2 : ∀ x ∈ ts, (ks ++ [t.1]).contains x.1 = false := by
                  intro x hx
                  refine contains_append_false ks [t.1] x.1 (hks' x hx) ?_
                  exact contains_singleton_false x.1 t.1
                    (fun hxeq => hnotin (hxeq ▸ List.mem_map_of_mem _ hx))
                rw [hstep, ih _ _ (ks ++ [t.1]) hks2 hnd']
                simp only [List.filterMap_cons, hent, List.map_cons,
                  List.append_assoc, List.singleton_append, List.length_cons,
                  Bool.false_eq_true, if_false, Prod.mk.injEq]
                refine ⟨by simp, by omega, by simp⟩
          · have hstep : cleanupStep1 cs cur dryRun (out, closed, applyKills w₁ ks) t
                = (out, closed, applyKills w₁ ks) := by
              unfold cleanupStep1
              rw [if_neg hskip]
              rw [hdead]
              rw [if_neg (by simpa using hd)]
              rw [if_neg (by
                simpa [scopeHasValidPaneFile_applyKills] using hfile)]
            have hent : phase1Entry w₁ cs cur t = none := by
              unfold phase1Entry
              rw [if_neg hskip, if_neg (by simpa using hd), if_neg hfile]
            rw [hstep, ih out closed ks hks' hnd']
            simp [List.filterMap_cons, hent]

/-- Phase 2 of `cleanupOrphanedPanes`, characterized declaratively: the
loop appends the `phase2Entry` classification of each candidate pane id
and kills exactly the found ones (none under dryRun). -/
theorem foldl_cleanupStep2 (processedIds : List String) (cur : Option String)
    (dryRun : Bool) :
    ∀ (pids : List String) (out : List OrphanedPane) (closed : Nat) (wc : World),
      pids.foldl (cleanupStep2 processedIds cur dryRun) (out, closed, wc)
        = (out ++ pids.filterMap (phase2Entry processedIds cur),
           closed + (if dryRun then 0
             else (pids.filterMap (phase2Entry processedIds cur)).length),
           applyKills wc (if dryRun then []
             else (pids.filterMap (phase2Entry processedIds cur)).map
               (fun e => e.id))) := by
  intro pids
  induction pids with
  | nil =>
      intro out closed wc
      cases dryRun <;> simp [List.foldl_nil, applyKills_nil]
  | cons pid pids ih =>
      intro out closed wc
      simp only [List.foldl_cons]
      by_cases hp : processedIds.contains pid = true
      · have hstep : cleanupStep2 processedIds cur dryRun (out, closed, wc) pid
            = (out, closed, wc) := by
          unfold cleanupStep2
          rw [if_pos hp]
        have hent : phase2Entry processedIds cur pid = none := by
          unfold phase2Entry
          rw [if_pos hp]
        rw [hstep, ih out closed wc]
        simp [List.filterMap_cons, hent]
      · by_cases hc : cur = some pid
        · have hstep : cleanupStep2 processedIds cur dryRun (out, closed, wc) pid
              = (out, closed, wc) := by
            unfold cleanupStep2
            rw [if_neg hp, if_pos hc]
          have hent : phase2Entry processedIds cur pid = none := by
            unfold phase2Entry
            rw [if_neg hp, if_pos hc]
          rw [hstep, ih out closed wc]
          simp [List.filterMap_cons, hent]
        · have hent : phase2Entry processedIds cur pid
              = some ⟨pid, OrphanReason.legacyUntagged⟩ := by
            unfold phase2Entry
            rw [if_neg hp, if_neg hc]
          cases dryRun with
          | true =>
              have hstep : cleanupStep2 processedIds cur true (out, closed, wc) pid
                  = (out ++ [⟨pid, OrphanReason.legacyUntagged⟩], closed, wc) := by
                unfold cleanupStep2
                rw [if_neg hp, if_neg hc]
                simp
              rw [hstep, ih _ _ wc]
              simp [List.filterMap_cons, hent]
          | false =>
              have hstep : cleanupStep2 processedIds cur false (out, closed, wc) pid
                  = (out ++ [⟨pid, OrphanReason.legacyUntagged⟩], closed + 1,
                     killPane wc pid) := by
                unfold cleanupStep2
                rw [if_neg hp, if_neg hc]
                simp
              rw [hstep, ih _ _ (killPane wc pid)]
              rw [killPane_eq_applyKills, applyKills_applyKills]
              simp only [List.filterMap_cons, hent, List.map_cons,
                List.append_assoc, List.singleton_append, List.length_cons,
                Bool.false_eq_true, if_false, Prod.mk.injEq]
              refine ⟨by simp, by omega, by simp⟩

/-- The tagged-pane ids are drawn in order from the pane ids. -/
theorem findAllCanvasPanes_ids_sublist (w : World) :
    ((findAllCanvasPanes w).map (fun t => t.1)).Sublist
      (w.panes.map (fun p => p.id)) := by
  unfold findAllCanvasPanes
  induction w.panes with
  | nil => simp
  | cons p ps ih =>
      rcases ho : p.owner with _ | o
      · simp only [List.filterMap_cons, ho, List.map_cons]
        exact ih.cons p.id
      · by_cases ht : trimStr o = ""
        · simp only [List.filterMap_cons, ho, if_pos ht, List.map_cons]
          exact ih.cons p.id
        · simp only [List.filterMap_cons, ho, if_neg ht, List.map_cons]
          exact ih.cons₂ p.id

/-- Panes already killed in phase 1 are tagged, hence skipped by phase 2:
restricting the candidate list to the surviving panes does not change the
legacy classification. -/
theorem findCanvasProcessPanes_kills_filterMap (w₁ : World)
    (K processedIds : List String) (cur : Option String)
    (hK : ∀ x, K.contains x = true → processedIds.contains x = true) :
    (findCanvasProcessPanes (applyKills w₁ K)).filterMap
        (phase2Entry processedIds cur)
      = (findCanvasProcessPanes w₁).filterMap (phase2Entry processedIds cur) := by
  unfold findCanvasProcessPanes applyKills
  induction w₁.panes with
  | nil => rfl
  | cons p ps ih =>
      cases hK1 : K.contains p.id
      · have hm : p.id ∉ K := (contains_eq_false_iff K p.id).mp hK1
        cases hr : p.runsCanvas
        · simpa [List.filter_cons, hm, hr] using ih
        · rcases hent2 : phase2Entry processedIds cur p.id with _ | e <;>
            simpa [List.filter_cons, hm, hr, List.filterMap_cons, hent2] using ih
      · have hm : p.id ∈ K := (contains_eq_true_iff K p.id).mp hK1
        have hent : phase2Entry processedIds cur p.id = none := by
          unfold phase2Entry
          rw [if_pos (hK p.id hK1)]
        cases hr : p.runsCanvas
        · simpa [List.filter_cons, hm, hr] using ih
        · simpa [List.filter_cons, hm, hr, List.filterMap_cons, hent] using ih

/-- The full declarative orphan list of one `cleanupOrphanedPanes` run,
evaluated on the post-`getCanvasPaneId` world: the classified tagged panes
followed by the untagged legacy panes running canvas content. -/
def cleanupFoundSpec (w₁ : World) (cs : String) (cur : Option String) :
    List OrphanedPane :=
  (findAllCanvasPanes w₁).filterMap (phase1Entry w₁ cs cur)
    ++ (findCanvasProcessPanes w₁).filterMap
        (phase2Entry ((findAllCanvasPanes w₁).map (fun t => t.1)) cur)

/-- `cleanupOrphanedPanes` computes exactly the declarative classification:
it returns the `cleanupFoundSpec` list, counts one close per found pane
unless `dryRun`, and the resulting world is the input world minus exactly
the found panes (untouched under `dryRun`). -/
theorem cleanupOrphanedPanes_spec (w : World) (dryRun : Bool)
    (hnd : (w.panes.map (fun p => p.id)).Nodup) :
    (cleanupOrphanedPanes w dryRun).1.found
        = cleanupFoundSpec (getCanvasPaneId w).2 w.scope (getCanvasPaneId w).1
      ∧ (cleanupOrphanedPanes w dryRun).1.closed
        = (if dryRun then 0
           else (cleanupFoundSpec (getCanvasPaneId w).2 w.scope
             (getCanvasPaneId w).1).length)
      ∧ (cleanupOrphanedPanes w dryRun).2
        = applyKills (getCanvasPaneId w).2
            (if dryRun then []
             else (cleanupFoundSpec (getCanvasPaneId w).2 w.scope
               (getCanvasPaneId w).1).map (fun e => e.id)) := by
  rcases hg : getCanvasPaneId w with ⟨cur, w₁⟩
  have hp : w₁.panes = w.panes := by
    rw [← getCanvasPaneId_panes w, hg]
  have hnd₁ : (w₁.panes.map (fun p => p.id)).Nodup := by
    rw [hp]
    exact hnd
  have hndt : ((findAllCanvasPanes w₁).map (fun t => t.1)).Nodup :=
    (findAllCanvasPanes_ids_sublist w₁).nodup hnd₁
  have hstart : (([] : List OrphanedPane), (0 : Nat), w₁)
      = (([] : List OrphanedPane), (0 : Nat), applyKills w₁ []) := by
    rw [applyKills_nil]
  have hK : ∀ x,
      (if dryRun then ([] : List String)
       else ((findAllCanvasPanes w₁).filterMap
         (phase1Entry w₁ w.scope cur)).map (fun e => e.id)).contains x = true →
      ((findAllCanvasPanes w₁).map (fun t => t.1)).contains x = true := by
    intro x hx
    cases dryRun with
    | true => simp at hx
    | false =>
        simp only [Bool.false_eq_true, if_false] at hx
        have hx' := (contains_eq_true_iff _ _).mp hx
        rcases List.mem_map.mp hx' with ⟨e, he, rfl⟩
        rcases List.mem_filterMap.mp he with ⟨t, ht, hte⟩
        rw [phase1Entry_id w₁ w.scope cur t e hte]
        exact (contains_eq_true_iff _ _).mpr (List.mem_map_of_mem _ ht)
  simp only [cleanupOrphanedPanes, hg]
  rw [hstart]
  rw [foldl_cleanupStep1 w₁ w.scope cur dryRun (findAllCanvasPanes w₁) [] 0 []
      (fun t _ => rfl) hndt]
  simp only [List.nil_append, Nat.zero_add]
  rw [foldl_cleanupStep2 ((findAllCanvasPanes w₁).map (fun t => t.1)) cur dryRun]
  rw [findCanvasProcessPanes_kills_filterMap w₁ _ _ cur hK]
  rw [applyKills_applyKills]
  unfold cleanupFoundSpec
  cases dryRun <;>
    simp [List.length_append, List.map_append]

/-- A world with the caller's own live tracked pane "p1" and a dead pane
"p2" of another scope. -/
def witWorld : World :=
  { scope := "aaaa"
    paneFiles := fun s => if s = "aaaa" then some "p1" else none
    panes := [{ id := "p1", dead := false, owner := some "aaaa",
                runsCanvas := true },
              { id := "p2", dead := true, owner := some "cccc",
                runsCanvas := true }] }

/-- A world holding only the caller's own live tracked pane "p1". -/
def witWorld2 : World :=
  { scope := "aaaa"
    paneFiles := fun s => if s = "aaaa" then some "p1" else none
    panes := [{ id := "p1", dead := false, owner := some "aaaa",
                runsCanvas := true }] }

theorem mem_findAllCanvasPanes (w : World) (t : String × String)
    (h : t ∈ findAllCanvasPanes w) :
    ∃ q ∈ w.panes, ∃ o, q.owner = some o ∧ ¬ trimStr o = ""
      ∧ t = (q.id, trimStr o) := by
  unfold findAllCanvasPanes at h
  rcases List.mem_filterMap.mp h with ⟨q, hq, hqe⟩
  rcases ho : q.owner with _ | o
  · simp only [ho] at hqe
    simp at hqe
  · simp only [ho] at hqe
    by_cases ht : trimStr o = ""
    · simp [ht] at hqe
    · refine ⟨q, hq, o, ho, ht, ?_⟩
      rw [if_neg ht] at hqe
      exact (by simpa using hqe : (q.id, trimStr o) = t).symm

theorem phase2Entry_some (processedIds : List String) (cur : Option String)
    (pidc : String) (e : OrphanedPane)
    (h : phase2Entry processedIds cur pidc = some e) :
    e.id = pidc ∧ ¬ cur = some pidc := by
  unfold phase2Entry at h
  split at h
  · exact absurd h (by simp)
  · split at h
    · exact absurd h (by simp)
    · rename_i hc
      obtain rfl : (⟨pidc, OrphanReason.legacyUntagged⟩ : OrphanedPane) = e := by
        simpa using h
      exact ⟨rfl, hc⟩

/-- C7 counterexample: in `cexWorld`, pane "p1" is alive and tagged by
scope "bbbb", and scope "bbbb"'s tracking record exists but points at a
different pane ("zz", not "p1"); by the claim such a pane is orphaned and
gets terminated, yet `cleanupOrphanedPanes` (with dryRun off) reports
nothing, closes nothing, and leaves the pane alive — the code only checks
that the owning scope's tracking file is non-empty, never where it
points. -/
theorem cleanup_points_elsewhere_counterexample :
    cexWorld.panes = [{ id := "p1", dead := false, owner := some "bbbb",
                        runsCanvas := true }]
      ∧ cexWorld.scope = "aaaa"
      ∧ cexWorld.paneFiles "bbbb" = some "zz"
      ∧ ¬ trimStr "zz" = "p1"
      ∧ (cleanupOrphanedPanes cexWorld false).1.found = []
      ∧ (cleanupOrphanedPanes cexWorld false).1.closed = 0
      ∧ (cleanupOrphanedPanes cexWorld false).2.panes = cexWorld.panes := by
  refine ⟨rfl, rfl, by decide, by decide, by decide, by decide, by decide⟩

/-- C7 (amended): a run of `cleanupOrphanedPanes` finds exactly the
declarative classification `cleanupFoundSpec` — a tagged pane other than
the caller's own verified current pane is orphaned iff it is dead, or it
is alive but owned by a different scope whose tracking file is missing or
blank (the file's content is never compared to the pane id); an untagged
pane recognizably running canvas content, other than the caller's current
pane, is a legacy orphan. It returns the list so found and, unless dryRun,
terminates exactly those panes. -/
theorem cleanupOrphanedPanes_classification (w : World) (dryRun : Bool)
    (hnd : (w.panes.map (fun p => p.id)).Nodup) :
    (cleanupOrphanedPanes w dryRun).1.found
        = cleanupFoundSpec (getCanvasPaneId w).2 w.scope (getCanvasPaneId w).1
      ∧ (cleanupOrphanedPanes w dryRun).1.closed
        = (if dryRun then 0 else (cleanupOrphanedPanes w dryRun).1.found.length)
      ∧ (cleanupOrphanedPanes w dryRun).2.panes
        = (if dryRun then (getCanvasPaneId w).2.panes
           else (getCanvasPaneId w).2.panes.filter (fun p =>
             !(((cleanupOrphanedPanes w dryRun).1.found.map
                 (fun e => e.id)).contains p.id))) := by
  obtain ⟨h1, h2, h3⟩ := cleanupOrphanedPanes_spec w dryRun hnd
  refine ⟨h1, ?_, ?_⟩
  · rw [h2, h1]
  · rw [h3, h1]
    cases dryRun with
    | true => simp [applyKills_nil]
    | false =>
        simp only [Bool.false_eq_true, if_false]
        rfl

/-- Witness for the amended C7: a world with the caller's own live pane
and a dead pane of another scope. -/
theorem cleanupOrphanedPanes_classification_witness :
    ((witWorld.panes.map (fun p => p.id)).Nodup)
      ∧ (cleanupOrphanedPanes witWorld false).1.found
        = cleanupFoundSpec (getCanvasPaneId witWorld).2 witWorld.scope
            (getCanvasPaneId witWorld).1 := by
  exact ⟨by decide,
    (cleanupOrphanedPanes_classification witWorld false (by decide)).1⟩

/-- C10: a full (non-dry-run) cleanup never reports or kills the caller's
own tracked, ownership-verified pane: whenever `getCanvasPaneId` returns a
pane id, no found orphan carries that id and the pane survives. -/
theorem own_pane_never_cleaned (w : World) (pid : String)
    (hnd : (w.panes.map (fun p => p.id)).Nodup)
    (hcur : (getCanvasPaneId w).1 = some pid) :
    (∀ e ∈ (cleanupOrphanedPanes w false).1.found, ¬ e.id = pid)
      ∧ pid ∈ (cleanupOrphanedPanes w false).2.panes.map (fun p => p.id) := by
  obtain ⟨h1, h2, h3⟩ := cleanupOrphanedPanes_spec w false hnd
  obtain ⟨p, hpmem, hpid, o, ho, hotrim⟩ := getCanvasPaneId_owned w pid hcur
  have hp1 : (getCanvasPaneId w).2.panes = w.panes := getCanvasPaneId_panes w
  have hnd₁ : ((getCanvasPaneId w).2.panes.map (fun p => p.id)).Nodup := by
    rw [hp1]
    exact hnd
  have hA : ∀ e ∈ cleanupFoundSpec (getCanvasPaneId w).2 w.scope
      (getCanvasPaneId w).1, ¬ e.id = pid := by
    intro e he heq
    unfold cleanupFoundSpec at he
    rcases List.mem_append.mp he with he1 | he2
    · rcases List.mem_filterMap.mp he1 with ⟨t, ht, hte⟩
      have hid := phase1Entry_id _ _ _ t e hte
      rcases mem_findAllCanvasPanes _ t ht with ⟨q, hq, o', ho', htr, hteq⟩
      have hqid : q.id = pid := by
        have : t.1 = q.id := by rw [hteq]
        rw [← heq, hid, this]
      have hqp : q = p := by
        refine List.inj_on_of_nodup_map hnd ?_ ?_ ?_
        · rw [← hp1]
          exact hp1 ▸ hq
        · exact hpmem
        · rw [hqid, hpid]
      have ht2 : t.2 = w.scope := by
        rw [hteq]
        have : o' = o := by
          rw [hqp] at ho'
          rw [ho'] at ho
          exact (Option.some.injEq _ _ ▸ ho)
        rw [this, hotrim]
      have hskip : (getCanvasPaneId w).1 = some t.1 ∧ t.2 = w.scope := by
        constructor
        · rw [hcur, ← heq, hid]
        · exact ht2
      rw [show phase1Entry (getCanvasPaneId w).2 w.scope (getCanvasPaneId w).1 t
          = none from by unfold phase1Entry; rw [if_pos hskip]] at hte
      exact absurd hte (by simp)
    · rcases List.mem_filterMap.mp he2 with ⟨pidc, _, hpe⟩
      obtain ⟨hide, hnc⟩ := phase2Entry_some _ _ pidc e hpe
      apply hnc
      rw [hcur, ← heq, hide]
  constructor
  · intro e he
    apply hA
    rw [← h1]
    exact he
  · have hnotin : pid ∉ (cleanupFoundSpec (getCanvasPaneId w).2 w.scope
        (getCanvasPaneId w).1).map (fun e => e.id) := by
      intro hmem
      rcases List.mem_map.mp hmem with ⟨e, he, hide⟩
      exact hA e he hide
    have hcont : ((cleanupFoundSpec (getCanvasPaneId w).2 w.scope
        (getCanvasPaneId w).1).map (fun e => e.id)).contains p.id = false := by
      rw [hpid]
      cases hc : ((cleanupFoundSpec (getCanvasPaneId w).2 w.scope
          (getCanvasPaneId w).1).map (fun e => e.id)).contains pid
      · rfl
      · exact absurd ((contains_eq_true_iff _ _).mp hc) hnotin
    have hmemres : p ∈ (cleanupOrphanedPanes w false).2.panes := by
      rw [h3]
      simp only [Bool.false_eq_true, if_false]
      unfold applyKills
      refine List.mem_filter.mpr ⟨?_, ?_⟩
      · rw [hp1]
        exact hpmem
      · rw [hcont]
        rfl
    rw [← hpid]
    exact List.mem_map_of_mem _ hmemres

/-- Witness for C10: the caller's own pane "p1", tracked and tagged under
scope "aaaa", survives a full cleanup. -/
theorem own_pane_never_cleaned_witness :
    (∀ e ∈ (cleanupOrphanedPanes witWorld2 false).1.found, ¬ e.id = "p1")
      ∧ "p1" ∈ (cleanupOrphanedPanes witWorld2 false).2.panes.map
          (fun p => p.id) := by
  exact own_pane_never_cleaned witWorld2 "p1" (by decide) (by decide)

end TuiCanvas
